import Mathlib

/-!
# openCaesar3: worker-staffed buildings, decaying ruins and the education advisor

A shallow embedding of `source/building/working.cpp`, `source/building/ruins.cpp`
and `source/gui/advisor_education_window.cpp`.

Conventions of the embedding.

* `int` and `unsigned int` are 32 bits wide.  An `unsigned int` value is a `Nat`
  reduced modulo `2^32`; an `int` value is an `Int`.  The two conversions are
  `toUInt32` and `toInt32`, and the result of `int` arithmetic wraps (`wrapInt32`).
* The walkers a building points to live in a `World`: the building keeps their
  identifiers, the world keeps their deletion flags and the log of dispatched
  events.
* Code of parent classes that is not part of the three files is a parameter: it
  acts on the component `base` of a building, the state the parent class owns.
* The fire attribute of a ruin (a `double`) and the service value of a walker (a
  `float`) are rationals; the floating-point operations of `applyService` round their
  exact results (`toDouble`, `toFloat`).
* A call that can throw returns an `Outcome`, which keeps the state the object is
  left in.
* A persistence stream (`VariantMap`) is a partial map from keys to `Variant` values.
* The walker list is modelled twice: as the list of the walkers pointed to, and as the
  list of references with the null reference included (`WalkerPtr`).
-/

namespace OpenCaesar3

/-! ## Machine integers -/

/-- The value of an `int` converted to `unsigned int`: reduction modulo `2^32`. -/
def toUInt32 (z : Int) : Nat := (z % 4294967296).toNat

/-- The value of an `unsigned int` converted to `int`: the two's-complement reading of
the 32-bit pattern. -/
def toInt32 (n : Nat) : Int :=
  if n % 4294967296 < 2147483648 then ((n % 4294967296 : Nat) : Int)
  else ((n % 4294967296 : Nat) : Int) - 4294967296

/-- Addition of two `unsigned int` values. -/
def uadd32 (a b : Nat) : Nat := (a % 4294967296 + b % 4294967296) % 4294967296

/-- Subtraction of two `unsigned int` values. -/
def usub32 (a b : Nat) : Nat :=
  (a % 4294967296 + (4294967296 - b % 4294967296)) % 4294967296

namespace math

/-- Modelled from the spec: `math::clamp` of `core/math.hpp`, which is not among the
sources; a value is "clamped into [low, high]": raised to `low`, then lowered to
`high`. -/
def clamp {α : Type} [LinearOrder α] (value low high : α) : α :=
  min (max value low) high

end math

/-! ## The world around a building -/

/-- Identifier of a walker object (the target of a `WalkerPtr`). -/
abbrev WalkerId := Nat

/-- Tile coordinates. -/
structure TilePos where
  i : Int
  j : Int
deriving DecidableEq, Repr

/-- Building kinds named by the modelled code. -/
inductive BuildingKind where
  | B_BURNED_RUINS
  | B_PLAGUE_RUINS
  | B_COLLAPSED_RUINS
deriving DecidableEq, Repr

/-- Events the modelled code creates and dispatches. -/
inductive GameEvent where
  | returnWorkers (center : TilePos) (workers : Int)
  | build (pos : TilePos) (kind : BuildingKind)
deriving DecidableEq, Repr

/-- The part of the game a building reaches through pointers: the deletion flag of
every walker and the events dispatched so far, oldest first. -/
structure World where
  isDeleted : WalkerId → Bool
  events : List GameEvent

/-- Modelled from the spec: `Walker::deleteLater` of `walker/walker.cpp`, which is not
among the sources; the walker is "flagged for deferred deletion". -/
def World.deleteLater (w : World) (walker : WalkerId) : World :=
  { w with isDeleted := fun k => if k = walker then true else w.isDeleted k }

/-- Modelled from the spec: `GameEvent::dispatch`, which is not among the sources; the
event is handed to the game once. -/
def World.dispatch (w : World) (e : GameEvent) : World :=
  { w with events := w.events ++ [e] }

/-! ## WorkingBuilding (`building/working.cpp`) -/

/-- The members of `WorkingBuilding::Impl`, with `base` the state of the parent class
`Building`. -/
structure WorkingBuilding (β : Type) where
  base : β
  currentWorkers : Int
  maxWorkers : Int
  isActive : Bool
  walkerList : List WalkerId

/-- The methods of the parent class `Building` that `working.cpp` calls. They are not
among the sources and act on the parent-owned state only. -/
structure BuildingApi (β : Type) where
  timeStep : β → Nat → β
  destroy : β → β
  getTilePos : β → TilePos

namespace WorkingBuilding

variable {β : Type}

/-- The constructor `WorkingBuilding::WorkingBuilding`. -/
def new (base : β) : WorkingBuilding β :=
  { base := base, currentWorkers := 0, maxWorkers := 0, isActive := true, walkerList := [] }

/-- The method `WorkingBuilding::setMaxWorkers`. -/
def setMaxWorkers (b : WorkingBuilding β) (maxWorkers : Int) : WorkingBuilding β :=
  { b with maxWorkers := maxWorkers }

/-- The method `WorkingBuilding::getMaxWorkers`. -/
def getMaxWorkers (b : WorkingBuilding β) : Int := b.maxWorkers

/-- The method `WorkingBuilding::setWorkers`: the `unsigned int` argument is converted to
`int` by `math::clamp<int>`. -/
def setWorkers (b : WorkingBuilding β) (currentWorkers : Nat) : WorkingBuilding β :=
  { b with currentWorkers := math.clamp (toInt32 currentWorkers) 0 b.maxWorkers }

/-- The method `WorkingBuilding::getWorkersCount`. -/
def getWorkersCount (b : WorkingBuilding β) : Int := b.currentWorkers

/-- The method `WorkingBuilding::setActive`. -/
def setActive (b : WorkingBuilding β) (value : Bool) : WorkingBuilding β :=
  { b with isActive := value }

/-- The method `WorkingBuilding::addWorkers`: `int + unsigned int` is computed in
`unsigned int`. -/
def addWorkers (b : WorkingBuilding β) (workers : Nat) : WorkingBuilding β :=
  setWorkers b (uadd32 (toUInt32 (getWorkersCount b)) workers)

/-- The method `WorkingBuilding::removeWorkers`: `int - unsigned int` is computed in
`unsigned int`. -/
def removeWorkers (b : WorkingBuilding β) (workers : Nat) : WorkingBuilding β :=
  setWorkers b (usub32 (toUInt32 (getWorkersCount b)) workers)

/-- The `while` loop of `WorkingBuilding::timeStep`. The iterator `it` is a position in
the list, `end()` is the length; one unit of fuel is spent per evaluation of the loop
condition, and `none` means the fuel ran out. -/
def timeStepLoop (isDeleted : WalkerId → Bool) :
    Nat → List WalkerId → Nat → Option (List WalkerId)
  | 0, _, _ => none
  | fuel + 1, walkerList, it =>
    if h : it < walkerList.length then
      if isDeleted (walkerList.get ⟨it, h⟩) then
        timeStepLoop isDeleted fuel (walkerList.eraseIdx it) it
      else
        timeStepLoop isDeleted fuel walkerList (it + 1)
    else
      some walkerList

/-- The method `WorkingBuilding::timeStep`. -/
def timeStep (api : BuildingApi β) (w : World) (fuel : Nat) (b : WorkingBuilding β)
    (time : Nat) : Option (WorkingBuilding β) :=
  let b1 := { b with base := api.timeStep b.base time }
  match timeStepLoop w.isDeleted fuel b1.walkerList 0 with
  | none => none
  | some l => some { b1 with walkerList := l }

/-- The method `WorkingBuilding::addWalker`; `valid` is `walker.isValid()`. -/
def addWalker (b : WorkingBuilding β) (walker : WalkerId) (valid : Bool) :
    WorkingBuilding β :=
  if valid then { b with walkerList := b.walkerList ++ [walker] } else b

/-- The method `WorkingBuilding::destroy`. -/
def destroy (api : BuildingApi β) (b : WorkingBuilding β) (w : World) :
    WorkingBuilding β × World :=
  let b1 := { b with base := api.destroy b.base }
  let w1 := b1.walkerList.foldl World.deleteLater w
  let e := GameEvent.returnWorkers (api.getTilePos b1.base) (getWorkersCount b1)
  (b1, w1.dispatch e)

end WorkingBuilding

/-- One call of a worker-count operation, with its `unsigned int` argument. -/
inductive WorkerCall where
  | setWorkers (n : Nat)
  | addWorkers (n : Nat)
  | removeWorkers (n : Nat)
deriving DecidableEq, Repr

/-- The argument of a call. -/
def WorkerCall.arg : WorkerCall → Nat
  | .setWorkers n => n
  | .addWorkers n => n
  | .removeWorkers n => n

/-- Performs one call on a building. -/
def WorkerCall.apply {β : Type} (b : WorkingBuilding β) : WorkerCall → WorkingBuilding β
  | .setWorkers n => b.setWorkers n
  | .addWorkers n => b.addWorkers n
  | .removeWorkers n => b.removeWorkers n

/-- Performs a sequence of calls, first to last. -/
def runCalls {β : Type} (b : WorkingBuilding β) (calls : List WorkerCall) :
    WorkingBuilding β :=
  calls.foldl WorkerCall.apply b

/-- The buildings used as concrete inputs have no parent state. -/
def unitApi : BuildingApi Unit :=
  { timeStep := fun _ _ => (), destroy := fun _ => (), getTilePos := fun _ => ⟨3, 4⟩ }

/-- A building with 5 of 10 workers. -/
def sampleBuilding : WorkingBuilding Unit :=
  { base := (), currentWorkers := 5, maxWorkers := 10, isActive := true, walkerList := [7, 8, 9] }

/-! ## Floating point

`float` and `double` values are the rationals that the binary32 and binary64 formats of
IEEE 754 represent; an operation rounds its exact result to the nearest representable
value, ties to even. Overflow to an infinity is not modelled: the only rounded values
are clamped into `[0, 100]` right away, which treats a large value and an infinity
alike. -/

/-- The integer nearest to a rational, the even one of the two on a tie. -/
def roundHalfEven (y : ℚ) : Int :=
  if y - (⌊y⌋ : ℚ) < 1 / 2 then ⌊y⌋
  else if 1 / 2 < y - (⌊y⌋ : ℚ) then ⌊y⌋ + 1
  else if ⌊y⌋ % 2 = 0 then ⌊y⌋ else ⌊y⌋ + 1

/-- Rounding to the nearest value of a binary format with `p` significand bits and least
normal exponent `emin`: the rational is scaled by the unit in the last place of its
binade, rounded to an integer and scaled back. -/
def roundBinary (p : Nat) (emin : Int) (x : ℚ) : ℚ :=
  if x = 0 then 0
  else
    (roundHalfEven (x / (2 : ℚ) ^ (max (Int.log 2 |x|) emin - ((p : Int) - 1))) : ℚ)
      * (2 : ℚ) ^ (max (Int.log 2 |x|) emin - ((p : Int) - 1))

/-- The conversion of an exact value to `float` (binary32). -/
def toFloat (x : ℚ) : ℚ := roundBinary 24 (-126) x

/-- The conversion of an exact value to `double` (binary64). -/
def toDouble (x : ℚ) : ℚ := roundBinary 53 (-1022) x

/-! ## Ruins (`building/ruins.cpp`) -/

/-- The sprite sheets named by the modelled code (`ResourceGroup::land2a`,
`ResourceGroup::sprites`). -/
inductive ResourceGroup where
  | land2a
  | sprites
deriving DecidableEq, Repr

/-- A pixel offset. -/
structure Point where
  x : Int
  y : Int
deriving DecidableEq, Repr

/-- A picture: the sheet and index it was loaded from (`none` for a default-constructed
picture) and its offset. -/
structure Picture where
  source : Option (ResourceGroup × Nat)
  offset : Point
deriving DecidableEq, Repr

namespace Picture

/-- A default-constructed picture. -/
def invalid : Picture := { source := none, offset := ⟨0, 0⟩ }

/-- The function `Picture::load( group, index )`. -/
def load (group : ResourceGroup) (index : Nat) : Picture :=
  { source := some (group, index), offset := ⟨0, 0⟩ }

/-- The method `Picture::setOffset`. -/
def setOffset (p : Picture) (x y : Int) : Picture := { p with offset := ⟨x, y⟩ }

end Picture

/-- An animation: its frames, its offset and the position of the current frame. -/
structure Animation where
  pictures : List Picture
  offset : Point
  index : Nat
deriving DecidableEq, Repr

namespace Animation

/-- An animation without frames. -/
def empty : Animation := { pictures := [], offset := ⟨0, 0⟩, index := 0 }

/-- Modelled from the spec: `Animation::load` of `gfx/animation.cpp`, which is not among
the sources; it selects "a fixed sprite-sheet region": `number` frames of the sheet from
index `start` on are added. -/
def load (a : Animation) (group : ResourceGroup) (start number : Nat) : Animation :=
  { a with pictures :=
      a.pictures ++ (List.range number).map (fun k => Picture.load group (start + k)) }

/-- Modelled from the spec: `Animation::clear`, which is not among the sources; the
frames are dropped ("clears its visual state"). -/
def clear (a : Animation) : Animation := { a with pictures := [] }

/-- Modelled from the spec: `Animation::setOffset`, which is not among the sources. -/
def setOffset (a : Animation) (p : Point) : Animation := { a with offset := p }

end Animation

/-- The frame management of `Animation` used by `PlagueRuins::timeStep`; it is not among
the sources and is a parameter. -/
structure AnimationApi where
  update : Animation → Nat → Animation
  getFrame : Animation → Picture

/-- The service kinds; only `prefect` is tested by the modelled code. -/
inductive ServiceType where
  | prefect
  | burningRuins
  | other (code : Nat)
deriving DecidableEq, Repr

/-- What the modelled code reads from a `ServiceWalker`: `getService()` and
`getServiceValue()`, the latter as the rational the `float` stands for. -/
structure ServiceWalker where
  service : ServiceType
  serviceValue : ℚ

/-- The state of a `BurningRuins` or `PlagueRuins` object. `base` is the state of the
parent class that the modelled code does not read, `fire` the value of
`getState( Construction::fire )` as an exact rational, `isDeleted` the mark set by
`deleteLater()`. `pictureLog` is a ghost field: the pictures passed to `setPicture` so
far, oldest first. -/
structure Ruins (β : Type) where
  base : β
  fire : ℚ
  picture : Picture
  pictureLog : List Picture
  animation : Animation
  fgPictures : List Picture
  isDeleted : Bool

/-- How a call that may throw ends: it returns, or `std::vector::at` throws
`std::out_of_range`; either way the object is left in the state given. -/
inductive Outcome (σ : Type) where
  | returned (s : σ)
  | threw (s : σ)

/-- The state of the object after the call. -/
def Outcome.state {σ : Type} : Outcome σ → σ
  | .returned s => s
  | .threw s => s

/-- Whether the call returned. -/
def Outcome.isReturned {σ : Type} : Outcome σ → Bool
  | .returned _ => true
  | .threw _ => false

namespace Ruins

variable {β : Type}

/-- The object as the parent constructor leaves it: not marked for removal, no picture,
an empty animation and an empty foreground-sprite list. -/
def init (base : β) : Ruins β :=
  { base := base, fire := 0, picture := Picture.invalid, pictureLog := [],
    animation := Animation.empty, fgPictures := [], isDeleted := false }

/-- The call `getState( Construction::fire )`. -/
def getState (s : Ruins β) : ℚ := s.fire

/-- Modelled from the spec: `Construction::updateState( Construction::fire, value,
relative )`, which is not among the sources; the attribute is "decremented or
incremented" by `value` when `relative` holds (the default) and set to `value`
otherwise. -/
def updateState (s : Ruins β) (value : ℚ) (relative : Bool) : Ruins β :=
  if relative then { s with fire := s.fire + value } else { s with fire := value }

/-- Modelled from the spec: `setPicture( group, index )`, which is not among the
sources; the object shows the picture of that sheet and index. The call is logged. -/
def setPicture (s : Ruins β) (group : ResourceGroup) (index : Nat) : Ruins β :=
  { s with picture := Picture.load group index,
           pictureLog := s.pictureLog ++ [Picture.load group index] }

/-- Modelled from the spec: `deleteLater()`, which is not among the sources; the entity
"marks itself for removal". -/
def deleteLater (s : Ruins β) : Ruins β := { s with isDeleted := true }

/-- Resizes a picture list as `std::vector::resize` does. -/
def resize (l : List Picture) (n : Nat) : List Picture :=
  l.take n ++ List.replicate (n - l.length) Picture.invalid

end Ruins

namespace BurningRuins

variable {β : Type}

/-- The constructor `BurningRuins::BurningRuins`. -/
def new (base : β) : Ruins β :=
  let s := (Ruins.init base).updateState 99 false
  let s := s.setPicture ResourceGroup.land2a 187
  let s := { s with animation := s.animation.load ResourceGroup.land2a 188 8 }
  let s := { s with animation := s.animation.setOffset ⟨14, 26⟩ }
  { s with fgPictures := Ruins.resize s.fgPictures 1 }

/-- The method `BurningRuins::timeStep`; `api.timeStep` is `ServiceBuilding::timeStep`. -/
def timeStep (api : BuildingApi β) (s : Ruins β) (time : Nat) : Ruins β :=
  let s := { s with base := api.timeStep s.base time }
  if time % 16 = 0 then
    if s.getState > 0 then
      let s := s.updateState (-1) true
      if s.getState = 50 then
        let s := s.setPicture ResourceGroup.land2a 214
        let s := { s with animation := s.animation.clear }
        let s := { s with animation := s.animation.load ResourceGroup.land2a 215 8 }
        { s with animation := s.animation.setOffset ⟨14, 26⟩ }
      else if s.getState = 25 then
        let s := s.setPicture ResourceGroup.land2a 223
        let s := { s with animation := s.animation.clear }
        let s := { s with animation := s.animation.load ResourceGroup.land2a 224 8 }
        { s with animation := s.animation.setOffset ⟨14, 18⟩ }
      else
        s
    else
      let s := s.deleteLater
      let s := { s with animation := s.animation.clear }
      { s with fgPictures := [] }
  else
    s

/-- The method `BurningRuins::isWalkable`. -/
def isWalkable (s : Ruins β) : Bool := decide (s.getState = 0)

/-- The method `BurningRuins::applyService`. The difference of the `double` attribute and
the service value is a `double`; `math::clamp<float>` takes it as a `float`, and its
`float` result is stored as a `double`. -/
def applyService (s : Ruins β) (walker : ServiceWalker) : Ruins β :=
  if ServiceType.prefect = walker.service then
    let newValue :=
      math.clamp (toFloat (toDouble (s.getState - walker.serviceValue))) 0 100
    s.updateState newValue false
  else
    s

/-- The ruin after `n` calls of `timeStep` on the consecutive ticks `t0`, `t0 + 1`, ... -/
def run (api : BuildingApi β) (s : Ruins β) (t0 : Nat) : Nat → Ruins β
  | 0 => s
  | n + 1 => timeStep api (run api s t0 n) (t0 + n)

end BurningRuins

namespace PlagueRuins

variable {β : Type}

/-- The constructor `PlagueRuins::PlagueRuins`. -/
def new (base : β) : Ruins β :=
  let s := (Ruins.init base).updateState 99 false
  let s := s.setPicture ResourceGroup.land2a 187
  let s := { s with animation := s.animation.load ResourceGroup.land2a 188 8 }
  let s := { s with animation := s.animation.setOffset ⟨14, 26⟩ }
  let s := { s with fgPictures := Ruins.resize s.fgPictures 2 }
  let s := { s with fgPictures := s.fgPictures.set 1 (Picture.load ResourceGroup.sprites 218) }
  { s with fgPictures := s.fgPictures.modify (fun p => p.setOffset 16 32) 1 }

/-- The method `PlagueRuins::timeStep`. The assignment to `_fgPicturesRef().at( 0 )`
throws when the list is empty. -/
def timeStep (anim : AnimationApi) (s : Ruins β) (time : Nat) : Outcome (Ruins β) :=
  let s := { s with animation := anim.update s.animation time }
  match s.fgPictures with
  | [] => Outcome.threw s
  | _ :: rest =>
    let s := { s with fgPictures := anim.getFrame s.animation :: rest }
    if time % 16 = 0 then
      if s.getState > 0 then
        let s := s.updateState (-1) true
        if s.getState = 50 then
          let s := s.setPicture ResourceGroup.land2a 214
          let s := { s with animation := s.animation.clear }
          let s := { s with animation := s.animation.load ResourceGroup.land2a 215 8 }
          Outcome.returned { s with animation := s.animation.setOffset ⟨14, 26⟩ }
        else if s.getState = 25 then
          let s := s.setPicture ResourceGroup.land2a 223
          let s := { s with animation := s.animation.clear }
          let s := { s with animation := s.animation.load ResourceGroup.land2a 224 8 }
          Outcome.returned { s with animation := s.animation.setOffset ⟨14, 18⟩ }
        else
          Outcome.returned s
      else
        let s := s.deleteLater
        let s := { s with animation := s.animation.clear }
        Outcome.returned { s with fgPictures := [] }
    else
      Outcome.returned s

/-- The method `PlagueRuins::applyService`: its body is empty. -/
def applyService (s : Ruins β) (_walker : ServiceWalker) : Ruins β := s

/-- The method `PlagueRuins::isWalkable`. -/
def isWalkable (s : Ruins β) : Bool := decide (s.getState = 0)

/-- The ruin after `timeStep` on the consecutive ticks `t0`, `t0 + 1`, ..., `n` of them;
a call that throws ends the run. -/
def run (anim : AnimationApi) (s : Ruins β) (t0 : Nat) : Nat → Outcome (Ruins β)
  | 0 => Outcome.returned s
  | n + 1 =>
    match run anim s t0 n with
    | Outcome.returned s1 => timeStep anim s1 (t0 + n)
    | Outcome.threw s1 => Outcome.threw s1

end PlagueRuins

/-- An animation whose frames do not advance; used for concrete inputs. -/
def stillAnimation : AnimationApi :=
  { update := fun a _ => a, getFrame := fun a => a.pictures.headD Picture.invalid }

/-- A prefect whose service value is 98. -/
def samplePrefect : ServiceWalker := { service := ServiceType.prefect, serviceValue := 98 }

/-- The pictures a decrement to the value `f` passes to `setPicture`. -/
def transitionPictures (f : ℚ) : List Picture :=
  if f = 50 then [Picture.load ResourceGroup.land2a 214]
  else if f = 25 then [Picture.load ResourceGroup.land2a 223]
  else []

/-! ## Education advisor (`gui/advisor_education_window.cpp`)

The `int` arithmetic of `getInfo` is 32-bit arithmetic: the result of an addition or a
multiplication wraps to its two's-complement reading (`wrapInt32`). -/

/-- The values of `TileOverlayType` that `getInfo` distinguishes; `other` stands for every
value that takes the `default` branch of its two `switch` statements. -/
inductive TileOverlayType where
  | B_SCHOOL
  | B_COLLEGE
  | B_LIBRARY
  | other
deriving DecidableEq, Repr

/-- The record `InfrastructureInfo`. -/
structure InfrastructureInfo where
  buildingCount : Int
  buildingWork : Int
  peoplesStuding : Int
  coverage : Int
deriving DecidableEq, Repr

/-- What `getInfo` reads from a service building: `getWorkers()` and `getMaxWorkers()`. -/
structure ServiceBuilding where
  workers : Int
  maxWorkers : Int
deriving DecidableEq, Repr

/-- The age groups of `CitizenGroup::Age` that `getInfo` names. -/
inductive Age where
  | scholar
  | student
  | mature
deriving DecidableEq, Repr

/-- What `getInfo` reads from a house: `getHabitants().count( age )` for the three age
groups. -/
structure House where
  scholar : Int
  student : Int
  mature : Int
deriving DecidableEq, Repr

/-- The call `house->getHabitants().count( age )`. -/
def House.count (h : House) : Age → Int
  | Age.scholar => h.scholar
  | Age.student => h.student
  | Age.mature => h.mature

/-- The `int` that the exact result of an `int` operation wraps to. -/
def wrapInt32 (z : Int) : Int := (z + 2147483648) % 4294967296 - 2147483648

/-- Division of two `int` values: truncation toward zero; no value for the divisor 0, nor
for `-2^31 / -1`, whose quotient is not an `int` (undefined behaviour, a trap on the
usual hardware). -/
def intDiv (a b : Int) : Option Int :=
  if b = 0 then none
  else if a = -2147483648 ∧ b = -1 then none
  else some (Int.tdiv a b)

namespace AdvisorEducationWindow

/-- The first `switch` of `getInfo`: `maxStuding` starts at 0. -/
def maxStuding : TileOverlayType → Int
  | TileOverlayType.B_SCHOOL => 75
  | TileOverlayType.B_COLLEGE => 100
  | TileOverlayType.B_LIBRARY => 800
  | TileOverlayType.other => 0

/-- The second `switch` of `getInfo`: `age` is left uninitialised by the `default`
branch. -/
def age : TileOverlayType → Option Age
  | TileOverlayType.B_SCHOOL => some Age.scholar
  | TileOverlayType.B_COLLEGE => some Age.student
  | TileOverlayType.B_LIBRARY => some Age.mature
  | TileOverlayType.other => none

/-- The body of the loop over the service buildings in `getInfo`. -/
def buildingStep (service : TileOverlayType) (ret : InfrastructureInfo)
    (serv : ServiceBuilding) : Option InfrastructureInfo :=
  if serv.workers > 0 then
    match intDiv (wrapInt32 (maxStuding service * serv.workers)) serv.maxWorkers with
    | none => none
    | some q =>
      some { ret with buildingWork := wrapInt32 (ret.buildingWork + 1),
                      peoplesStuding := wrapInt32 (ret.peoplesStuding + q),
                      buildingCount := wrapInt32 (ret.buildingCount + 1) }
  else
    some { ret with buildingCount := wrapInt32 (ret.buildingCount + 1) }

/-- The loop over the service buildings in `getInfo`. -/
def buildingLoop (service : TileOverlayType) :
    List ServiceBuilding → InfrastructureInfo → Option InfrastructureInfo
  | [], ret => some ret
  | serv :: rest, ret =>
    match buildingStep service ret serv with
    | none => none
    | some ret1 => buildingLoop service rest ret1

/-- The loop over the houses in `getInfo`, from the value `n` of `peoplesCount`. The
variable `age` is read once per house; it has no value after the `default` branch. -/
def peoplesCount (a : Option Age) : List House → Int → Option Int
  | [], n => some n
  | house :: rest, n =>
    match a with
    | none => none
    | some g => peoplesCount a rest (wrapInt32 (n + house.count g))

/-- The function `AdvisorEducationWindow::Impl::getInfo`; `servBuildings` is the result of
`helper.find<ServiceBuilding>( service )` and `houses` that of
`helper.find<House>( B_HOUSE )`. -/
def getInfo (service : TileOverlayType) (servBuildings : List ServiceBuilding)
    (houses : List House) : Option InfrastructureInfo :=
  let ret : InfrastructureInfo :=
    { buildingWork := 0, peoplesStuding := 0, buildingCount := 0, coverage := 0 }
  match buildingLoop service servBuildings ret with
  | none => none
  | some ret =>
    match peoplesCount (age service) houses 0 with
    | none => none
    | some n =>
      match intDiv (wrapInt32 (ret.peoplesStuding * 100)) (wrapInt32 (n + 1)) with
      | none => none
      | some c => some { ret with coverage := c }

/-- The capacity per building of a category, in the words of the specification:
75 / 100 / 800 for school / college / library. -/
def capacitySpec : TileOverlayType → Int
  | TileOverlayType.B_SCHOOL => 75
  | TileOverlayType.B_COLLEGE => 100
  | TileOverlayType.B_LIBRARY => 800
  | TileOverlayType.other => 0

/-- The eligible population of a category, in the words of the specification: the sum
over the houses of the count of scholars / students / matures. -/
def eligibleSpec (service : TileOverlayType) (houses : List House) : Int :=
  (houses.map (fun h =>
    match service with
    | TileOverlayType.B_SCHOOL => h.scholar
    | TileOverlayType.B_COLLEGE => h.student
    | TileOverlayType.B_LIBRARY => h.mature
    | TileOverlayType.other => 0)).sum

/-- The served population, in the words of the specification: the sum over the buildings
with workers > 0 of `floor(capacity * workers / maxWorkers)`. -/
def servedSpec (service : TileOverlayType) (buildings : List ServiceBuilding) : Int :=
  ((buildings.filter (fun b => decide (0 < b.workers))).map (fun b =>
    ⌊((capacitySpec service * b.workers : Int) : ℚ) / ((b.maxWorkers : Int) : ℚ)⌋)).sum

/-- The reference definition of `getInfo`, in the words of the specification. -/
def getInfoSpec (service : TileOverlayType) (buildings : List ServiceBuilding)
    (houses : List House) : InfrastructureInfo :=
  { buildingCount := (buildings.length : Int),
    buildingWork := ((buildings.filter (fun b => decide (0 < b.workers))).length : Int),
    peoplesStuding := servedSpec service buildings,
    coverage := ⌊((servedSpec service buildings * 100 : Int) : ℚ)
                  / ((eligibleSpec service houses + 1 : Int) : ℚ)⌋ }

end AdvisorEducationWindow

/-- The number of ticks divisible by 16 among the `n` consecutive ticks `t0`, ...,
`t0 + n - 1`. -/
def ticks16 (t0 n : Nat) : Nat := (t0 + n + 15) / 16 - (t0 + 15) / 16

/-- One decrement of the decay attribute: by 1 while positive. -/
def decay (f : ℚ) : ℚ := if 0 < f then f - 1 else f

/-- The state invariant of a plague ruin that keeps `timeStep` from throwing while the
decay attribute is positive: the foreground-sprite list is then not empty. -/
def PlagueRuins.SpritesWhileBurning {β : Type} (s : Ruins β) : Prop :=
  0 < s.fire → s.fgPictures ≠ []

/-- The `setPicture` log of a fresh ruin after `m` ticks divisible by 16: the picture of
the constructor, then that of the `fire == 50` transition from the 49th such tick on and
that of the `fire == 25` transition from the 74th on. -/
def scenarioLog (m : Nat) : List Picture :=
  [Picture.load ResourceGroup.land2a 187]
    ++ (if 49 ≤ m then [Picture.load ResourceGroup.land2a 214] else [])
    ++ (if 74 ≤ m then [Picture.load ResourceGroup.land2a 223] else [])

/-- The picture a fresh ruin shows after `m` ticks divisible by 16. -/
def scenarioPicture (m : Nat) : Picture :=
  if 74 ≤ m then Picture.load ResourceGroup.land2a 223
  else if 49 ≤ m then Picture.load ResourceGroup.land2a 214
  else Picture.load ResourceGroup.land2a 187

/-- What a fresh ruin looks like after `m` ticks divisible by 16 and no `applyService`:
`m` decrements from 99 floored at 0, the pictures set so far, and the removal mark from
the 100th such tick on. -/
def ScenarioState {β : Type} (m : Nat) (s : Ruins β) : Prop :=
  s.fire = ((99 - m : Nat) : ℚ) ∧ s.pictureLog = scenarioLog m ∧
    s.picture = scenarioPicture m ∧ s.isDeleted = decide (100 ≤ m)

/-! ## Persistence of a working building (`WorkingBuilding::save`, `WorkingBuilding::load`) -/

/-- Modelled from the spec: the values of the "generic key-value structure" (`Variant` of
`core/variant.hpp`, which is not among the sources): a null value, an `int` or a
`bool`. -/
inductive Variant where
  | null
  | int (v : Int)
  | bool (b : Bool)
deriving DecidableEq, Repr

namespace Variant

/-- The method `Variant::isNull`. -/
def isNull : Variant → Bool
  | Variant.null => true
  | _ => false

/-- The conversion of a `Variant` to `int`. -/
def toInt : Variant → Int
  | Variant.null => 0
  | Variant.int v => v
  | Variant.bool b => if b then 1 else 0

/-- The conversion of a `Variant` to `bool`. -/
def toBool : Variant → Bool
  | Variant.null => false
  | Variant.int v => decide (v ≠ 0)
  | Variant.bool b => b

end Variant

/-- Modelled from the spec: the "generic key-value structure" (`VariantMap`, not among the
sources): a key has a value or is absent. -/
abbrev VariantMap := String → Option Variant

namespace VariantMap

/-- The empty map. -/
def empty : VariantMap := fun _ => none

/-- The assignment `stream[ key ] = value`. -/
def set (stream : VariantMap) (key : String) (value : Variant) : VariantMap :=
  fun k => if k = key then some value else stream k

/-- The call `stream.get( key, defaultValue )`: the value of the key, or the default when
the key is absent. -/
def get (stream : VariantMap) (key : String) (defaultValue : Variant) : Variant :=
  (stream key).getD defaultValue

end VariantMap

/-- The methods `Building::save` and `Building::load` of the parent class, which are not
among the sources: the first writes into the stream, the second reads it into the
parent-owned state. -/
structure PersistApi (β : Type) where
  save : β → VariantMap → VariantMap
  load : β → VariantMap → β

namespace WorkingBuilding

variable {β : Type}

/-- The method `WorkingBuilding::save`. -/
def save (papi : PersistApi β) (b : WorkingBuilding β) (stream : VariantMap) : VariantMap :=
  let stream := papi.save b.base stream
  let stream := stream.set "currentWorkers" (Variant.int b.currentWorkers)
  let stream := stream.set "active" (Variant.bool b.isActive)
  stream.set "maxWorkers" (Variant.int b.maxWorkers)

/-- The method `WorkingBuilding::load`; `stream.get( "maxWorkers" )` has the null value
as its default. -/
def load (papi : PersistApi β) (b : WorkingBuilding β) (stream : VariantMap) :
    WorkingBuilding β :=
  let b := { b with base := papi.load b.base stream }
  let b := { b with currentWorkers := (stream.get "currentWorkers" (Variant.int 0)).toInt }
  let b := { b with isActive := (stream.get "active" (Variant.bool true)).toBool }
  let value := stream.get "maxWorkers" Variant.null
  if !value.isNull then { b with maxWorkers := value.toInt } else b

/-- The states a working building reaches from its constructor by the state-changing
operations of the class. With `guarded` set, `setMaxWorkers` is only called with a
maximum that is not below the current count, and `load` only on a stream whose values
give a count within `[0, maxWorkers]`. -/
inductive Reachable (api : BuildingApi β) (papi : PersistApi β) (guarded : Bool) :
    WorkingBuilding β → Prop where
  | new (base : β) : Reachable api papi guarded (WorkingBuilding.new base)
  | setMaxWorkers (b : WorkingBuilding β) (m : Int) :
      Reachable api papi guarded b → (guarded = true → b.currentWorkers ≤ m) →
      Reachable api papi guarded (b.setMaxWorkers m)
  | setWorkers (b : WorkingBuilding β) (n : Nat) :
      Reachable api papi guarded b → Reachable api papi guarded (b.setWorkers n)
  | addWorkers (b : WorkingBuilding β) (n : Nat) :
      Reachable api papi guarded b → Reachable api papi guarded (b.addWorkers n)
  | removeWorkers (b : WorkingBuilding β) (n : Nat) :
      Reachable api papi guarded b → Reachable api papi guarded (b.removeWorkers n)
  | setActive (b : WorkingBuilding β) (value : Bool) :
      Reachable api papi guarded b → Reachable api papi guarded (b.setActive value)
  | load (b : WorkingBuilding β) (stream : VariantMap) :
      Reachable api papi guarded b →
      (guarded = true →
        0 ≤ (stream.get "currentWorkers" (Variant.int 0)).toInt ∧
        (stream.get "currentWorkers" (Variant.int 0)).toInt
          ≤ (if (stream.get "maxWorkers" Variant.null).isNull then b.maxWorkers
             else (stream.get "maxWorkers" Variant.null).toInt)) →
      Reachable api papi guarded (WorkingBuilding.load papi b stream)
  | addWalker (b : WorkingBuilding β) (walker : WalkerId) (valid : Bool) :
      Reachable api papi guarded b → Reachable api papi guarded (b.addWalker walker valid)
  | timeStep (b b1 : WorkingBuilding β) (w : World) (fuel time : Nat) :
      Reachable api papi guarded b → WorkingBuilding.timeStep api w fuel b time = some b1 →
      Reachable api papi guarded b1
  | destroy (b : WorkingBuilding β) (w : World) :
      Reachable api papi guarded b →
      Reachable api papi guarded (WorkingBuilding.destroy api b w).1

end WorkingBuilding

/-- A parent class without persistent state; used for concrete inputs. -/
def unitPersist : PersistApi Unit :=
  { save := fun _ stream => stream, load := fun _ _ => () }

/-- A stream that stores a worker count of 100 and nothing else. -/
def oversizedStream : VariantMap :=
  VariantMap.empty.set "currentWorkers" (Variant.int 100)

/-- The invariant of a working building: `0 <= currentWorkers <= maxWorkers`. -/
def WorkingBuilding.WorkersInRange {β : Type} (b : WorkingBuilding β) : Prop :=
  0 ≤ b.currentWorkers ∧ b.currentWorkers ≤ b.maxWorkers

/-! ## Ruins: destruction and reachable states -/

/-- The methods of the parent class that `BurningRuins::destroy` and
`PlagueRuins::destroy` call (`ServiceBuilding::destroy`, `Building::destroy`,
`getTilePos`). They are not among the sources; the parent's `destroy` may dispatch
events of its own, so it acts on the parent-owned state and on the world. -/
structure DestroyApi (β : Type) where
  destroy : β → World → β × World
  getTilePos : β → TilePos

/-- Whether an event is a `BuildEvent`. -/
def GameEvent.isBuild : GameEvent → Bool
  | GameEvent.build _ _ => true
  | GameEvent.returnWorkers _ _ => false

namespace BurningRuins

variable {β : Type}

/-- The method `BurningRuins::destroy`. -/
def destroy (api : DestroyApi β) (s : Ruins β) (w : World) : Ruins β × World :=
  let s1 := { s with base := (api.destroy s.base w).1 }
  let w1 := (api.destroy s.base w).2
  let event := GameEvent.build (api.getTilePos s1.base) BuildingKind.B_BURNED_RUINS
  (s1, w1.dispatch event)

/-- The method `BurningRuins::timeStep` with the world made explicit: its body dispatches
nothing and the parent's step acts on the parent-owned state. -/
def timeStepInWorld (api : BuildingApi β) (s : Ruins β) (w : World) (time : Nat) :
    Ruins β × World :=
  (timeStep api s time, w)

/-- The method `BurningRuins::applyService` with the world made explicit: its body
dispatches nothing. -/
def applyServiceInWorld (s : Ruins β) (w : World) (walker : ServiceWalker) :
    Ruins β × World :=
  (applyService s walker, w)

/-- The states a burning ruin reaches from its constructor by `timeStep` and
`applyService` calls. With `integral` set, the service values are integers below `2^23`
in absolute value. -/
inductive Reachable (api : BuildingApi β) (integral : Bool) : Ruins β → Prop where
  | new (base : β) : Reachable api integral (BurningRuins.new base)
  | timeStep (s : Ruins β) (time : Nat) :
      Reachable api integral s → Reachable api integral (BurningRuins.timeStep api s time)
  | applyService (s : Ruins β) (walker : ServiceWalker) :
      Reachable api integral s →
      (integral = true → ∃ k : Int, walker.serviceValue = (k : ℚ) ∧ |k| < 8388608) →
      Reachable api integral (BurningRuins.applyService s walker)

end BurningRuins

namespace PlagueRuins

variable {β : Type}

/-- The method `PlagueRuins::destroy`. -/
def destroy (api : DestroyApi β) (s : Ruins β) (w : World) : Ruins β × World :=
  let s1 := { s with base := (api.destroy s.base w).1 }
  let w1 := (api.destroy s.base w).2
  let event := GameEvent.build (api.getTilePos s1.base) BuildingKind.B_BURNED_RUINS
  (s1, w1.dispatch event)

/-- The method `PlagueRuins::timeStep` with the world made explicit: its body dispatches
nothing. -/
def timeStepInWorld (anim : AnimationApi) (s : Ruins β) (w : World) (time : Nat) :
    Outcome (Ruins β) × World :=
  (timeStep anim s time, w)

/-- The method `PlagueRuins::applyService` with the world made explicit. -/
def applyServiceInWorld (s : Ruins β) (w : World) (walker : ServiceWalker) :
    Ruins β × World :=
  (applyService s walker, w)

/-- The states a plague ruin reaches from its constructor by `timeStep` and
`applyService` calls, whatever the service values. -/
inductive Reachable (anim : AnimationApi) : Ruins β → Prop where
  | new (base : β) : Reachable anim (PlagueRuins.new base)
  | timeStep (s : Ruins β) (time : Nat) :
      Reachable anim s → Reachable anim (PlagueRuins.timeStep anim s time).state
  | applyService (s : Ruins β) (walker : ServiceWalker) :
      Reachable anim s → Reachable anim (PlagueRuins.applyService s walker)

end PlagueRuins

/-- A parent class whose `destroy` is `WorkingBuilding::destroy`, the parent of a
`ServiceBuilding`: it flags the walkers and dispatches a `ReturnWorkers`. -/
def workingParent : DestroyApi (WorkingBuilding Unit) :=
  { destroy := fun b w => WorkingBuilding.destroy unitApi b w,
    getTilePos := fun b => unitApi.getTilePos b.base }

/-- A world without flagged walkers and without events. -/
def emptyWorld : World := { isDeleted := fun _ => false, events := [] }

/-- A prefect whose service value is 98.5. -/
def halfPrefect : ServiceWalker := { service := ServiceType.prefect, serviceValue := 197 / 2 }

/-- A prefect whose service value is the `float` nearest to 0.1. -/
def tenthPrefect : ServiceWalker :=
  { service := ServiceType.prefect, serviceValue := 13421773 / 134217728 }

/-- A parent step that leaves a working building as it is; used for concrete inputs. -/
def idleWorkingApi : BuildingApi (WorkingBuilding Unit) :=
  { timeStep := fun b _ => b, destroy := fun b => b,
    getTilePos := fun b => unitApi.getTilePos b.base }

/-! ## Walker references (`WalkerPtr`)

The walker list of a `WorkingBuilding` holds `WalkerPtr` values. The definitions above
keep the walkers the entries point to; the definitions below keep the references
themselves, a null reference included, and make the dereferences of
`WorkingBuilding::timeStep` and `WorkingBuilding::destroy` explicit. -/

/-- A `WalkerPtr`: a reference to a walker, or the null reference. -/
abbrev WalkerPtr := Option WalkerId

/-- The method `WalkerPtr::isValid`. -/
def WalkerPtr.isValid (p : WalkerPtr) : Bool := p.isSome

/-- How code that dereferences walker references ends: with a value, by dereferencing an
invalid reference, or by running out of fuel. -/
inductive Deref (α : Type) where
  | value (a : α)
  | invalidReference
  | outOfFuel

namespace WorkingBuilding

/-- The method `WorkingBuilding::addWalker` on the list of references. -/
def addWalkerPtr (walkerList : List WalkerPtr) (walker : WalkerPtr) : List WalkerPtr :=
  if WalkerPtr.isValid walker then walkerList ++ [walker] else walkerList

/-- The `while` loop of `WorkingBuilding::timeStep` on the list of references:
`(*it)->isDeleted()` dereferences the entry at the iterator. -/
def timeStepLoopPtr (isDeleted : WalkerId → Bool) :
    Nat → List WalkerPtr → Nat → Deref (List WalkerPtr)
  | 0, _, _ => Deref.outOfFuel
  | fuel + 1, walkerList, it =>
    if h : it < walkerList.length then
      match walkerList.get ⟨it, h⟩ with
      | none => Deref.invalidReference
      | some walker =>
        if isDeleted walker then
          timeStepLoopPtr isDeleted fuel (walkerList.eraseIdx it) it
        else
          timeStepLoopPtr isDeleted fuel walkerList (it + 1)
    else
      Deref.value walkerList

/-- The `foreach` loop of `WorkingBuilding::destroy` on the list of references:
`walker->deleteLater()` dereferences every entry. -/
def destroyLoopPtr : List WalkerPtr → World → Deref World
  | [], w => Deref.value w
  | none :: _, _ => Deref.invalidReference
  | some walker :: rest, w => destroyLoopPtr rest (w.deleteLater walker)

/-- The lists of references a building reaches from its constructor by `addWalker`,
`timeStep` and `destroy` calls. -/
inductive ReachableWalkers : List WalkerPtr → Prop where
  | new : ReachableWalkers []
  | addWalker (l : List WalkerPtr) (walker : WalkerPtr) :
      ReachableWalkers l → ReachableWalkers (addWalkerPtr l walker)
  | timeStep (l l1 : List WalkerPtr) (isDeleted : WalkerId → Bool) (fuel : Nat) :
      ReachableWalkers l → timeStepLoopPtr isDeleted fuel l 0 = Deref.value l1 →
      ReachableWalkers l1
  | destroy (l : List WalkerPtr) (w w1 : World) :
      ReachableWalkers l → destroyLoopPtr l w = Deref.value w1 → ReachableWalkers l

end WorkingBuilding

/-! ## The coverage label (`EducationInfoLabel::_updateTexture`) -/

namespace EducationInfoLabel

/-- The array `coverages` of `_updateTexture`: 10 entries. -/
def coverages : List String :=
  ["##edu_poor##", "##edu_very_bad##", "##edu_bad##", "##edu_not_bad##", "##edu_simple##",
   "##edu_above_simple##", "##edu_good##", "##edu_very_good##", "##edu_pretty##",
   "##edu_awesome##"]

/-- The index `math::clamp( _info.coverage / 10, 0, 10 )` of `_updateTexture`. -/
def coverageIndex (info : InfrastructureInfo) : Int :=
  math.clamp (Int.tdiv info.coverage 10) 0 10

/-- The value of `coverageStr` in `_updateTexture`; `none` is a read past the end of the
array `coverages`. -/
def coverageStr (info : InfrastructureInfo) : Option String :=
  if info.coverage > 0 then coverages.get? (coverageIndex info).toNat
  else some "##non_cvrg##"

end EducationInfoLabel

theorem clamp_zero_bounds (v hi : Int) (h : 0 ≤ hi) :
    0 ≤ math.clamp v 0 hi ∧ math.clamp v 0 hi ≤ hi := by
  unfold math.clamp
  constructor
  · exact le_min (le_max_right _ _) h
  · exact min_le_right _ _

theorem setWorkers_bounds {β : Type} (b : WorkingBuilding β) (n : Nat)
    (h : 0 ≤ b.maxWorkers) :
    0 ≤ (b.setWorkers n).currentWorkers ∧
      (b.setWorkers n).currentWorkers ≤ (b.setWorkers n).maxWorkers ∧
      (b.setWorkers n).maxWorkers = b.maxWorkers := by
  have hc := clamp_zero_bounds (toInt32 n) b.maxWorkers h
  exact ⟨hc.1, hc.2, rfl⟩

theorem apply_bounds {β : Type} (b : WorkingBuilding β) (c : WorkerCall)
    (h : 0 ≤ b.maxWorkers) :
    0 ≤ (WorkerCall.apply b c).currentWorkers ∧
      (WorkerCall.apply b c).currentWorkers ≤ (WorkerCall.apply b c).maxWorkers ∧
      (WorkerCall.apply b c).maxWorkers = b.maxWorkers := by
  cases c with
  | setWorkers n => exact setWorkers_bounds b n h
  | addWorkers n => exact setWorkers_bounds b _ h
  | removeWorkers n => exact setWorkers_bounds b _ h

theorem apply_maxWorkers {β : Type} (b : WorkingBuilding β) (c : WorkerCall) :
    (WorkerCall.apply b c).maxWorkers = b.maxWorkers := by
  cases c <;> rfl

theorem runCalls_maxWorkers {β : Type} (calls : List WorkerCall) (b : WorkingBuilding β) :
    (runCalls b calls).maxWorkers = b.maxWorkers := by
  induction calls generalizing b with
  | nil => rfl
  | cons c cs ih =>
    show (runCalls (WorkerCall.apply b c) cs).maxWorkers = b.maxWorkers
    rw [ih, apply_maxWorkers]

theorem runCalls_concat {β : Type} (calls : List WorkerCall) (c : WorkerCall)
    (b : WorkingBuilding β) :
    runCalls b (calls ++ [c]) = WorkerCall.apply (runCalls b calls) c := by
  simp [runCalls, List.foldl_append]

theorem runCalls_bounds {β : Type} (calls : List WorkerCall) (b : WorkingBuilding β)
    (hmax : 0 ≤ b.maxWorkers) (hne : calls ≠ []) :
    0 ≤ (runCalls b calls).currentWorkers ∧
      (runCalls b calls).currentWorkers ≤ (runCalls b calls).maxWorkers ∧
      (runCalls b calls).maxWorkers = b.maxWorkers := by
  rcases List.eq_nil_or_concat calls with h | ⟨cs, c, h⟩
  · exact absurd h hne
  · subst h
    rw [List.concat_eq_append, runCalls_concat]
    have hm : 0 ≤ (runCalls b cs).maxWorkers := by rw [runCalls_maxWorkers]; exact hmax
    obtain ⟨h1, h2, h3⟩ := apply_bounds (runCalls b cs) c hm
    exact ⟨h1, h2, by rw [h3, runCalls_maxWorkers]⟩

/-- C1. From a state with `maxWorkers >= 0` (whatever the current count), after each call
of a finite sequence of `setWorkers` / `addWorkers` / `removeWorkers` calls with unsigned
32-bit arguments, `0 <= currentWorkers <= maxWorkers` holds and `maxWorkers` is the
initial one. The state after the `k`-th call is the run of the first `k` calls. -/
theorem workers_invariant_after_each_call {β : Type} (b : WorkingBuilding β)
    (calls : List WorkerCall) (hmax : 0 ≤ b.maxWorkers)
    (_hargs : ∀ c ∈ calls, c.arg < 4294967296)
    (k : Nat) (hk : 0 < k) (hkl : k ≤ calls.length) :
    0 ≤ (runCalls b (calls.take k)).currentWorkers ∧
      (runCalls b (calls.take k)).currentWorkers ≤ (runCalls b (calls.take k)).maxWorkers ∧
      (runCalls b (calls.take k)).maxWorkers = b.maxWorkers := by
  apply runCalls_bounds _ b hmax
  intro h
  have hl : (calls.take k).length = 0 := by rw [h]; rfl
  rw [List.length_take] at hl
  omega

theorem workers_invariant_after_each_call_witness :
    0 ≤ (runCalls sampleBuilding
        ([WorkerCall.removeWorkers 4294967295, WorkerCall.addWorkers 4294967290,
          WorkerCall.setWorkers 2147483648].take 2)).currentWorkers ∧
      (runCalls sampleBuilding
        ([WorkerCall.removeWorkers 4294967295, WorkerCall.addWorkers 4294967290,
          WorkerCall.setWorkers 2147483648].take 2)).currentWorkers ≤
        (runCalls sampleBuilding
          ([WorkerCall.removeWorkers 4294967295, WorkerCall.addWorkers 4294967290,
            WorkerCall.setWorkers 2147483648].take 2)).maxWorkers ∧
      (runCalls sampleBuilding
        ([WorkerCall.removeWorkers 4294967295, WorkerCall.addWorkers 4294967290,
          WorkerCall.setWorkers 2147483648].take 2)).maxWorkers = sampleBuilding.maxWorkers :=
  workers_invariant_after_each_call sampleBuilding
    [WorkerCall.removeWorkers 4294967295, WorkerCall.addWorkers 4294967290,
      WorkerCall.setWorkers 2147483648]
    (by decide) (by decide) 2 (by decide) (by decide)

theorem toInt32_of_lt (n : Nat) (h : n < 2147483648) : toInt32 n = (n : Int) := by
  unfold toInt32
  have h1 : n % 4294967296 = n := Nat.mod_eq_of_lt (by omega)
  rw [h1, if_pos h]

theorem toInt32_of_ge (n : Nat) (h : 2147483648 ≤ n) (h2 : n < 4294967296) :
    toInt32 n = (n : Int) - 4294967296 := by
  unfold toInt32
  have h1 : n % 4294967296 = n := Nat.mod_eq_of_lt h2
  rw [h1, if_neg (by omega)]

theorem toUInt32_of_nonneg (z : Int) (h0 : 0 ≤ z) (h1 : z < 4294967296) :
    toUInt32 z = z.toNat := by
  unfold toUInt32
  rw [Int.emod_eq_of_lt h0 h1]

/-- Within the range where the unsigned difference does not wrap past `-2^31`,
`removeWorkers` floors at zero. -/
theorem removeWorkers_floor_in_range {β : Type} (b : WorkingBuilding β) (w : Nat)
    (h0 : 0 ≤ b.currentWorkers) (h1 : b.currentWorkers ≤ b.maxWorkers)
    (hm : b.maxWorkers < 2147483648) (hw : (w : Int) ≤ b.currentWorkers + 2147483648) :
    (b.removeWorkers w).currentWorkers = max (b.currentWorkers - w) 0 := by
  obtain ⟨c, hc⟩ := Int.eq_ofNat_of_zero_le h0
  have hu : toUInt32 b.currentWorkers = c := by
    rw [toUInt32_of_nonneg _ h0 (by omega), hc]; rfl
  show math.clamp (toInt32 (usub32 (toUInt32 b.currentWorkers) w)) 0 b.maxWorkers = _
  rw [hu]
  unfold math.clamp usub32
  rw [hc] at hw h1 ⊢
  by_cases hcw : w ≤ c
  · have e : (c % 4294967296 + (4294967296 - w % 4294967296)) % 4294967296 = c - w := by omega
    rw [e, toInt32_of_lt _ (by omega)]
    have : ((c - w : Nat) : Int) = (c : Int) - w := by omega
    rw [this, max_eq_left (by omega), min_eq_left (by omega)]
  · have e : (c % 4294967296 + (4294967296 - w % 4294967296)) % 4294967296
        = c + 4294967296 - w := by omega
    rw [e, toInt32_of_ge _ (by omega) (by omega)]
    rw [max_eq_right (by omega), max_eq_right (by omega), min_eq_left (by omega)]

/-- C2 (failing input). With 5 of 10 workers, `removeWorkers(4294967295)` leaves 6 workers:
the unsigned difference `5 - 4294967295` wraps to 6, where the floor of the mathematical
difference is 0 and the count must not increase. -/
theorem removeWorkers_wraps_past_floor :
    sampleBuilding.currentWorkers = 5 ∧ sampleBuilding.maxWorkers = 10 ∧
      (sampleBuilding.removeWorkers 4294967295).currentWorkers = 6 ∧
      max (sampleBuilding.currentWorkers - 4294967295) 0 = 0 := by
  decide

/-- C3 (counterexample). With `maxWorkers = 10`, `setWorkers(2147483648)` leaves the count at
0, not at `min(2147483648, 10) = 10`: the argument converts to a negative `int`. -/
theorem setWorkers_not_min_counterexample :
    0 ≤ sampleBuilding.maxWorkers ∧ 2147483648 < 4294967296 ∧
      (sampleBuilding.setWorkers 2147483648).currentWorkers = 0 ∧
      (sampleBuilding.setWorkers 2147483648).currentWorkers
        ≠ min ((2147483648 : Nat) : Int) sampleBuilding.maxWorkers := by
  decide

/-- C3 (amended). For `maxWorkers >= 0` and an unsigned 32-bit argument `n`, after
`setWorkers(n)` the count is `min(n, maxWorkers)` when `n < 2^31`, and 0 when `n >= 2^31`
(the argument is then a negative `int`); in both cases it lies in `[0, maxWorkers]`. -/
theorem setWorkers_clamps_signed {β : Type} (b : WorkingBuilding β) (n : Nat)
    (hmax : 0 ≤ b.maxWorkers) (hn : n < 4294967296) :
    (b.setWorkers n).currentWorkers
        = (if n < 2147483648 then min (n : Int) b.maxWorkers else 0) ∧
      0 ≤ (b.setWorkers n).currentWorkers ∧
      (b.setWorkers n).currentWorkers ≤ b.maxWorkers ∧
      (b.setWorkers n).maxWorkers = b.maxWorkers := by
  refine ⟨?_, (setWorkers_bounds b n hmax).1, (setWorkers_bounds b n hmax).2.1, rfl⟩
  show math.clamp (toInt32 n) 0 b.maxWorkers = _
  unfold math.clamp
  by_cases h : n < 2147483648
  · rw [if_pos h, toInt32_of_lt n h, max_eq_left (by omega)]
  · rw [if_neg h, toInt32_of_ge n (by omega) hn, max_eq_right (by omega), min_eq_left hmax]

theorem setWorkers_clamps_signed_witness :
    (sampleBuilding.setWorkers 4000000000).currentWorkers
        = (if 4000000000 < 2147483648 then min ((4000000000 : Nat) : Int)
            sampleBuilding.maxWorkers else 0) ∧
      0 ≤ (sampleBuilding.setWorkers 4000000000).currentWorkers ∧
      (sampleBuilding.setWorkers 4000000000).currentWorkers ≤ sampleBuilding.maxWorkers ∧
      (sampleBuilding.setWorkers 4000000000).maxWorkers = sampleBuilding.maxWorkers :=
  setWorkers_clamps_signed sampleBuilding 4000000000 (by decide) (by decide)

/-! ## Walker list -/

/-- The loop at iterator position `pre.length` of the list `pre ++ suf`: the part before
the iterator is kept, the part from the iterator on is filtered. -/
theorem timeStepLoop_split (d : WalkerId → Bool) :
    ∀ (fuel : Nat) (pre suf : List WalkerId), suf.length < fuel →
      WorkingBuilding.timeStepLoop d fuel (pre ++ suf) pre.length
        = some (pre ++ suf.filter (fun k => !d k)) := by
  intro fuel
  induction fuel with
  | zero => intro pre suf h; omega
  | succ fuel ih =>
    intro pre suf h
    cases suf with
    | nil => simp [WorkingBuilding.timeStepLoop]
    | cons x rest =>
      have hlt : pre.length < (pre ++ x :: rest).length := by simp
      have hget : (pre ++ x :: rest).get ⟨pre.length, hlt⟩ = x := by
        rw [List.get_eq_getElem]
        show (pre ++ x :: rest)[pre.length] = x
        rw [List.getElem_append_right (le_refl _)]
        simp
      have hrest : rest.length < fuel := by simp at h; omega
      rw [WorkingBuilding.timeStepLoop, dif_pos hlt, hget]
      by_cases hd : d x = true
      · have he : (pre ++ x :: rest).eraseIdx pre.length = pre ++ rest := by
          rw [List.eraseIdx_append_of_length_le (le_refl _)]
          simp
        rw [if_pos hd, he, ih pre rest hrest]
        simp [List.filter_cons, hd]
      · have hpre : pre ++ x :: rest = (pre ++ [x]) ++ rest := by simp
        have hlen : pre.length + 1 = (pre ++ [x]).length := by simp
        rw [if_neg hd, hpre, hlen, ih (pre ++ [x]) rest hrest]
        simp [List.filter_cons, hd]

/-- C4. For every walker list `L` of a `WorkingBuilding`, `timeStep` returns (the loop ends
within `L.length + 1` evaluations of its condition, so with any larger fuel), the list
afterwards is `L` filtered by "not isDeleted" (all and only the entries not flagged, with
multiplicity and in order), and `currentWorkers`, `maxWorkers` and the active flag are
unchanged. -/
theorem timeStep_prunes_deleted_walkers {β : Type} (api : BuildingApi β) (w : World)
    (fuel : Nat) (b : WorkingBuilding β) (time : Nat) (hfuel : b.walkerList.length < fuel) :
    ∃ b1, WorkingBuilding.timeStep api w fuel b time = some b1 ∧
      b1.walkerList = b.walkerList.filter (fun k => !w.isDeleted k) ∧
      b1.currentWorkers = b.currentWorkers ∧ b1.maxWorkers = b.maxWorkers ∧
      b1.isActive = b.isActive := by
  have h := timeStepLoop_split w.isDeleted fuel [] b.walkerList hfuel
  simp only [List.nil_append, List.length_nil] at h
  refine ⟨{ b with base := api.timeStep b.base time,
                   walkerList := b.walkerList.filter (fun k => !w.isDeleted k) }, ?_,
    rfl, rfl, rfl, rfl⟩
  simp only [WorkingBuilding.timeStep, h]

theorem timeStep_prunes_deleted_walkers_witness :
    ∃ b1, WorkingBuilding.timeStep unitApi ⟨fun k => k == 8, []⟩ 4 sampleBuilding 32 = some b1 ∧
      b1.walkerList
        = sampleBuilding.walkerList.filter
            (fun k => !(World.mk (fun k => k == 8) []).isDeleted k) ∧
      b1.currentWorkers = sampleBuilding.currentWorkers ∧
      b1.maxWorkers = sampleBuilding.maxWorkers ∧
      b1.isActive = sampleBuilding.isActive :=
  timeStep_prunes_deleted_walkers unitApi ⟨fun k => k == 8, []⟩ 4 sampleBuilding 32
    (by decide)

theorem foldl_deleteLater_isDeleted (l : List WalkerId) (w : World) (k : WalkerId) :
    (l.foldl World.deleteLater w).isDeleted k = (decide (k ∈ l) || w.isDeleted k) := by
  induction l generalizing w with
  | nil => simp
  | cons x xs ih =>
    rw [List.foldl_cons, ih]
    by_cases hk : k = x
    · simp [World.deleteLater, hk]
    · simp [World.deleteLater, hk]

theorem foldl_deleteLater_events (l : List WalkerId) (w : World) :
    (l.foldl World.deleteLater w).events = w.events := by
  induction l generalizing w with
  | nil => rfl
  | cons x xs ih => rw [List.foldl_cons, ih]; rfl

/-- C10. For every `WorkingBuilding` state, `destroy()` flags every walker of the walker
list for deferred deletion and no other walker (a flag is set afterwards iff the walker
is in the list or was flagged before), dispatches exactly one event, a `ReturnWorkers`
carrying the tile position and the worker count of before the call, and leaves
`currentWorkers`, `maxWorkers`, the active flag and the walker list unchanged. -/
theorem destroy_flags_walkers_and_returns_workers {β : Type} (api : BuildingApi β)
    (b : WorkingBuilding β) (w : World) :
    (∀ k, (WorkingBuilding.destroy api b w).2.isDeleted k
        = (decide (k ∈ b.walkerList) || w.isDeleted k)) ∧
      (WorkingBuilding.destroy api b w).2.events
        = w.events ++ [GameEvent.returnWorkers (api.getTilePos (api.destroy b.base))
            b.currentWorkers] ∧
      (WorkingBuilding.destroy api b w).1.currentWorkers = b.currentWorkers ∧
      (WorkingBuilding.destroy api b w).1.maxWorkers = b.maxWorkers ∧
      (WorkingBuilding.destroy api b w).1.isActive = b.isActive ∧
      (WorkingBuilding.destroy api b w).1.walkerList = b.walkerList := by
  refine ⟨fun k => ?_, ?_, rfl, rfl, rfl, rfl⟩
  · exact foldl_deleteLater_isDeleted b.walkerList w k
  · show (b.walkerList.foldl World.deleteLater w).events ++ _ = _
    rw [foldl_deleteLater_events]
    rfl

/-! ## Decay of ruins: single calls -/

theorem burning_timeStep_off_tick {β : Type} (api : BuildingApi β) (s : Ruins β) (t : Nat)
    (h : t % 16 ≠ 0) :
    BurningRuins.timeStep api s t = { s with base := api.timeStep s.base t } := by
  simp [BurningRuins.timeStep, h]

theorem burning_timeStep_removal {β : Type} (api : BuildingApi β) (s : Ruins β) (t : Nat)
    (h : t % 16 = 0) (hf : s.fire ≤ 0) :
    BurningRuins.timeStep api s t
      = { s with base := api.timeStep s.base t, isDeleted := true,
                 animation := s.animation.clear, fgPictures := [] } := by
  simp [BurningRuins.timeStep, h, Ruins.getState, not_lt.mpr hf, Ruins.deleteLater]

theorem burning_timeStep_decrement {β : Type} (api : BuildingApi β) (s : Ruins β) (t : Nat)
    (h : t % 16 = 0) (hf : 0 < s.fire) :
    (BurningRuins.timeStep api s t).fire = s.fire - 1 ∧
      (BurningRuins.timeStep api s t).isDeleted = s.isDeleted ∧
      (BurningRuins.timeStep api s t).fgPictures = s.fgPictures ∧
      (BurningRuins.timeStep api s t).pictureLog
        = s.pictureLog ++ transitionPictures (s.fire - 1) ∧
      (BurningRuins.timeStep api s t).picture
        = ((transitionPictures (s.fire - 1)).getLast?).getD s.picture := by
  simp only [BurningRuins.timeStep, h, Ruins.getState, Ruins.updateState, Ruins.setPicture,
    transitionPictures, if_true, hf, sub_eq_add_neg]
  split_ifs <;> simp_all

theorem plague_timeStep_throws {β : Type} (anim : AnimationApi) (s : Ruins β) (t : Nat)
    (h : s.fgPictures = []) :
    PlagueRuins.timeStep anim s t
      = Outcome.threw { s with animation := anim.update s.animation t } := by
  simp [PlagueRuins.timeStep, h]

theorem plague_timeStep_off_tick {β : Type} (anim : AnimationApi) (s : Ruins β) (t : Nat)
    (h : t % 16 ≠ 0) (hfg : s.fgPictures ≠ []) :
    PlagueRuins.timeStep anim s t
      = Outcome.returned
          { s with animation := anim.update s.animation t,
                   fgPictures :=
                     anim.getFrame (anim.update s.animation t) :: s.fgPictures.tail } := by
  cases hl : s.fgPictures with
  | nil => exact absurd hl hfg
  | cons p rest => simp [PlagueRuins.timeStep, h, hl]

theorem plague_timeStep_removal {β : Type} (anim : AnimationApi) (s : Ruins β) (t : Nat)
    (h : t % 16 = 0) (hf : s.fire ≤ 0) (hfg : s.fgPictures ≠ []) :
    PlagueRuins.timeStep anim s t
      = Outcome.returned
          { s with isDeleted := true, animation := (anim.update s.animation t).clear,
                   fgPictures := [] } := by
  cases hl : s.fgPictures with
  | nil => exact absurd hl hfg
  | cons p rest =>
    simp [PlagueRuins.timeStep, h, hl, Ruins.getState, not_lt.mpr hf, Ruins.deleteLater]

theorem plague_timeStep_decrement {β : Type} (anim : AnimationApi) (s : Ruins β) (t : Nat)
    (h : t % 16 = 0) (hf : 0 < s.fire) (hfg : s.fgPictures ≠ []) :
    (PlagueRuins.timeStep anim s t).isReturned = true ∧
      (PlagueRuins.timeStep anim s t).state.fire = s.fire - 1 ∧
      (PlagueRuins.timeStep anim s t).state.isDeleted = s.isDeleted ∧
      (PlagueRuins.timeStep anim s t).state.fgPictures ≠ [] ∧
      (PlagueRuins.timeStep anim s t).state.pictureLog
        = s.pictureLog ++ transitionPictures (s.fire - 1) ∧
      (PlagueRuins.timeStep anim s t).state.picture
        = ((transitionPictures (s.fire - 1)).getLast?).getD s.picture := by
  cases hl : s.fgPictures with
  | nil => exact absurd hl hfg
  | cons p rest =>
    simp only [PlagueRuins.timeStep, h, hl, Ruins.getState, Ruins.updateState,
      Ruins.setPicture, transitionPictures, if_true, hf, sub_eq_add_neg]
    split_ifs <;> simp_all [Outcome.state, Outcome.isReturned]

theorem burning_timeStep_fire {β : Type} (api : BuildingApi β) (s : Ruins β) (t : Nat) :
    (BurningRuins.timeStep api s t).fire = if t % 16 = 0 then decay s.fire else s.fire := by
  by_cases h : t % 16 = 0
  · rw [if_pos h]
    by_cases hf : 0 < s.fire
    · rw [(burning_timeStep_decrement api s t h hf).1, decay, if_pos hf]
    · rw [burning_timeStep_removal api s t h (not_lt.mp hf), decay, if_neg hf]
  · rw [if_neg h, burning_timeStep_off_tick api s t h]

theorem plague_timeStep_fire {β : Type} (anim : AnimationApi) (s : Ruins β) (t : Nat) :
    (PlagueRuins.timeStep anim s t).state.fire
      = if t % 16 = 0 ∧ s.fgPictures ≠ [] then decay s.fire else s.fire := by
  by_cases hfg : s.fgPictures = []
  · rw [plague_timeStep_throws anim s t hfg, if_neg (by simp [hfg])]
    rfl
  · by_cases h : t % 16 = 0
    · rw [if_pos ⟨h, hfg⟩]
      by_cases hf : 0 < s.fire
      · rw [(plague_timeStep_decrement anim s t h hf hfg).2.1, decay, if_pos hf]
      · rw [plague_timeStep_removal anim s t h (not_lt.mp hf) hfg, decay, if_neg hf]
        rfl
    · rw [if_neg (by simp [h]), plague_timeStep_off_tick anim s t h hfg]
      rfl

theorem decay_le (f : ℚ) : decay f ≤ f := by
  unfold decay
  split_ifs <;> linarith

theorem decay_of_nonpos (f : ℚ) (h : f ≤ 0) : decay f = f := by
  rw [decay, if_neg (not_lt.mpr h)]

theorem decay_pos_imp (f : ℚ) (h : 0 < decay f) : 0 < f := by
  by_contra hf
  rw [decay, if_neg hf] at h
  exact hf h

theorem plague_new_sprites {β : Type} (base : β) :
    (PlagueRuins.new base).fgPictures ≠ [] := by
  simp [PlagueRuins.new, Ruins.resize, Ruins.init, Ruins.updateState, Ruins.setPicture,
    List.modify, List.replicate]

theorem plague_timeStep_sprites {β : Type} (anim : AnimationApi) (s : Ruins β) (t : Nat)
    (h : PlagueRuins.SpritesWhileBurning s) :
    PlagueRuins.SpritesWhileBurning (PlagueRuins.timeStep anim s t).state := by
  intro hpos
  rw [plague_timeStep_fire] at hpos
  by_cases hfg : s.fgPictures = []
  · rw [if_neg (by simp [hfg])] at hpos
    exact absurd hfg (h hpos)
  · by_cases ht : t % 16 = 0
    · rw [if_pos ⟨ht, hfg⟩] at hpos
      exact (plague_timeStep_decrement anim s t ht (decay_pos_imp _ hpos) hfg).2.2.2.1
    · rw [plague_timeStep_off_tick anim s t ht hfg]
      simp [Outcome.state]

theorem ticks16_zero (t0 : Nat) : ticks16 t0 0 = 0 := by
  simp [ticks16]

theorem ticks16_succ (t0 n : Nat) :
    ticks16 t0 (n + 1) = ticks16 t0 n + (if (t0 + n) % 16 = 0 then 1 else 0) := by
  unfold ticks16
  split_ifs <;> omega

theorem ticks16_block (t0 k : Nat) : ticks16 t0 (16 * k) = k := by
  unfold ticks16
  omega

theorem ticks16_mono (t0 : Nat) {n m : Nat} (h : n ≤ m) : ticks16 t0 n ≤ ticks16 t0 m := by
  unfold ticks16
  omega

theorem burning_run_fire {β : Type} (api : BuildingApi β) (s : Ruins β) (t0 n : Nat) :
    (BurningRuins.run api s t0 n).fire = decay^[ticks16 t0 n] s.fire := by
  induction n with
  | zero => simp [BurningRuins.run, ticks16_zero]
  | succ n ih =>
    rw [BurningRuins.run, burning_timeStep_fire, ih, ticks16_succ]
    split_ifs
    · rw [Function.iterate_succ_apply']
    · rfl

theorem decay_iterate_pred (f : ℚ) (m : Nat) (hm : 0 < m) :
    decay^[m] f = decay (decay^[m - 1] f) := by
  obtain ⟨k, rfl⟩ : ∃ k, m = k + 1 := ⟨m - 1, by omega⟩
  rw [Function.iterate_succ_apply']
  rfl

theorem plague_run_succ_returned {β : Type} (anim : AnimationApi) (s s1 : Ruins β)
    (t0 n : Nat) (h : PlagueRuins.run anim s t0 n = Outcome.returned s1) :
    PlagueRuins.run anim s t0 (n + 1) = PlagueRuins.timeStep anim s1 (t0 + n) := by
  rw [PlagueRuins.run, h]

theorem plague_run_succ_threw {β : Type} (anim : AnimationApi) (s s1 : Ruins β)
    (t0 n : Nat) (h : PlagueRuins.run anim s t0 n = Outcome.threw s1) :
    PlagueRuins.run anim s t0 (n + 1) = Outcome.threw s1 := by
  rw [PlagueRuins.run, h]

/-- A run of a plague ruin whose sprite list is not empty at the start: the decay
attribute follows the decrements, a call throws only on an empty sprite list, and the
sprite list is empty only after a tick divisible by 16 met a non-positive attribute. -/
theorem plague_run_fire {β : Type} (anim : AnimationApi) (s : Ruins β) (t0 : Nat)
    (hfg : s.fgPictures ≠ []) (n : Nat) :
    (PlagueRuins.run anim s t0 n).state.fire = decay^[ticks16 t0 n] s.fire ∧
      ((PlagueRuins.run anim s t0 n).isReturned = false →
        (PlagueRuins.run anim s t0 n).state.fgPictures = []) ∧
      ((PlagueRuins.run anim s t0 n).state.fgPictures = [] →
        0 < ticks16 t0 n ∧ decay^[ticks16 t0 n - 1] s.fire ≤ 0) := by
  induction n with
  | zero =>
    refine ⟨by simp [PlagueRuins.run, ticks16_zero, Outcome.state], ?_, ?_⟩
    · intro h
      simp [PlagueRuins.run, Outcome.isReturned] at h
    · intro h
      exact absurd h hfg
  | succ n ih =>
    obtain ⟨ih1, ih2, ih3⟩ := ih
    have frozen : ∀ s1 : Ruins β, s1.fire = decay^[ticks16 t0 n] s.fire →
        (0 < ticks16 t0 n ∧ decay^[ticks16 t0 n - 1] s.fire ≤ 0) →
        s1.fire = decay^[ticks16 t0 (n + 1)] s.fire ∧
          0 < ticks16 t0 (n + 1) ∧ decay^[ticks16 t0 (n + 1) - 1] s.fire ≤ 0 := by
      intro s1 h1 h3
      have hg : decay^[ticks16 t0 n] s.fire ≤ 0 := by
        rw [decay_iterate_pred _ _ h3.1]
        exact le_trans (decay_le _) h3.2
      rw [ticks16_succ]
      split_ifs
      · refine ⟨?_, by omega, ?_⟩
        · rw [Function.iterate_succ_apply', decay_of_nonpos _ hg]
          exact h1
        · simpa using hg
      · exact ⟨h1, h3.1, h3.2⟩
    cases hr : PlagueRuins.run anim s t0 n with
    | threw s1 =>
      rw [plague_run_succ_threw anim s s1 t0 n hr]
      rw [hr] at ih1 ih2 ih3
      simp only [Outcome.state, Outcome.isReturned] at ih1 ih2 ih3 ⊢
      have hempty : s1.fgPictures = [] := ih2 trivial
      obtain ⟨f1, f2, f3⟩ := frozen s1 ih1 (ih3 hempty)
      exact ⟨f1, fun _ => hempty, fun _ => ⟨f2, f3⟩⟩
    | returned s1 =>
      rw [plague_run_succ_returned anim s s1 t0 n hr]
      rw [hr] at ih1 ih2 ih3
      simp only [Outcome.state, Outcome.isReturned] at ih1 ih2 ih3
      by_cases hempty : s1.fgPictures = []
      · rw [plague_timeStep_throws anim s1 _ hempty]
        simp only [Outcome.state, Outcome.isReturned]
        obtain ⟨f1, f2, f3⟩ := frozen s1 ih1 (ih3 hempty)
        exact ⟨f1, fun _ => hempty, fun _ => ⟨f2, f3⟩⟩
      · by_cases ht : (t0 + n) % 16 = 0
        · have hm : ticks16 t0 (n + 1) = ticks16 t0 n + 1 := by
            rw [ticks16_succ, if_pos ht]
          rw [hm, Function.iterate_succ_apply', ← ih1]
          by_cases hf : 0 < s1.fire
          · obtain ⟨d1, d2, _, d4, _⟩ := plague_timeStep_decrement anim s1 _ ht hf hempty
            refine ⟨by rw [d2, decay, if_pos hf], ?_, fun h => absurd h d4⟩
            intro h
            rw [d1] at h
            exact absurd h (by simp)
          · rw [plague_timeStep_removal anim s1 _ ht (not_lt.mp hf) hempty]
            simp only [Outcome.state, Outcome.isReturned]
            refine ⟨by rw [decay, if_neg hf], fun h => absurd h (by simp), fun _ => ?_⟩
            refine ⟨by omega, ?_⟩
            simp only [Nat.add_sub_cancel]
            rw [← ih1]
            exact not_lt.mp hf
        · have hm : ticks16 t0 (n + 1) = ticks16 t0 n := by
            rw [ticks16_succ, if_neg ht]
            rfl
          rw [hm, plague_timeStep_off_tick anim s1 _ ht hempty]
          simp only [Outcome.state, Outcome.isReturned]
          exact ⟨ih1, fun h => absurd h (by simp), fun h => absurd h (by simp)⟩

theorem ticks16_window (t0 : Nat) : ticks16 t0 16 = 1 := by
  unfold ticks16
  omega

/-- C5. For `BurningRuins` and `PlagueRuins` with fire value `f` (any exact value, so any
integer): one `timeStep(t)` leaves `f` unchanged when `t` is not divisible by 16 or
`f <= 0`, sets it to `f - 1` when `t` is divisible by 16 and `f > 0`, and never increases
it; and for `0 < f <= 100` the 16 calls on the ticks `t0 .. t0 + 15` leave exactly
`f - 1`. For the plague ruin the sprite list is not empty while `f > 0`, which holds
after construction and is kept by `timeStep`; all 16 calls then return. -/
theorem timeStep_decays_by_one_every_16_ticks {β : Type} (api : BuildingApi β)
    (anim : AnimationApi) (s : Ruins β) (t t0 : Nat)
    (hsprites : PlagueRuins.SpritesWhileBurning s) :
    ((t % 16 ≠ 0 ∨ s.fire ≤ 0) →
        (BurningRuins.timeStep api s t).fire = s.fire ∧
        (PlagueRuins.timeStep anim s t).state.fire = s.fire) ∧
      (t % 16 = 0 → 0 < s.fire →
        (BurningRuins.timeStep api s t).fire = s.fire - 1 ∧
        (PlagueRuins.timeStep anim s t).state.fire = s.fire - 1 ∧
        (PlagueRuins.timeStep anim s t).isReturned = true) ∧
      (BurningRuins.timeStep api s t).fire ≤ s.fire ∧
      (PlagueRuins.timeStep anim s t).state.fire ≤ s.fire ∧
      (0 < s.fire → s.fire ≤ 100 →
        (BurningRuins.run api s t0 16).fire = s.fire - 1 ∧
        (PlagueRuins.run anim s t0 16).state.fire = s.fire - 1 ∧
        (PlagueRuins.run anim s t0 16).isReturned = true) ∧
      PlagueRuins.SpritesWhileBurning (PlagueRuins.timeStep anim s t).state ∧
      (∀ base : β, PlagueRuins.SpritesWhileBurning (PlagueRuins.new base)) := by
  refine ⟨?_, ?_, ?_, ?_, ?_, plague_timeStep_sprites anim s t hsprites,
    fun base _ => plague_new_sprites base⟩
  · intro h
    rw [burning_timeStep_fire, plague_timeStep_fire]
    rcases h with h | h
    · simp [h]
    · simp [decay_of_nonpos _ h]
  · intro h hf
    rw [burning_timeStep_fire, plague_timeStep_fire, if_pos h, if_pos ⟨h, hsprites hf⟩,
      decay, if_pos hf]
    exact ⟨rfl, rfl, (plague_timeStep_decrement anim s t h hf (hsprites hf)).1⟩
  · rw [burning_timeStep_fire]
    split_ifs
    · exact decay_le _
    · exact le_refl _
  · rw [plague_timeStep_fire]
    split_ifs
    · exact decay_le _
    · exact le_refl _
  · intro hf _
    obtain ⟨p1, p2, p3⟩ := plague_run_fire anim s t0 (hsprites hf) 16
    rw [burning_run_fire, ticks16_window] at *
    have hd : decay^[1] s.fire = s.fire - 1 := by
      rw [Function.iterate_one, decay, if_pos hf]
    refine ⟨hd, by rw [p1, hd], ?_⟩
    by_contra hret
    have hnot : (PlagueRuins.run anim s t0 16).isReturned = false := by
      simpa using hret
    have h3 := (p3 (p2 hnot)).2
    simp only [Nat.sub_self, Function.iterate_zero, id_eq] at h3
    exact absurd hf (not_lt.mpr h3)

theorem plague_new_fire {β : Type} (base : β) : (PlagueRuins.new base).fire = 99 := rfl

theorem burning_new_fire {β : Type} (base : β) : (BurningRuins.new base).fire = 99 := rfl

theorem timeStep_decays_by_one_every_16_ticks_witness :
    (BurningRuins.timeStep unitApi (PlagueRuins.new ()) 32).fire
        = (PlagueRuins.new ()).fire - 1 ∧
      (BurningRuins.run unitApi (PlagueRuins.new ()) 5 16).fire
        = (PlagueRuins.new ()).fire - 1 ∧
      (PlagueRuins.run stillAnimation (PlagueRuins.new ()) 5 16).state.fire
        = (PlagueRuins.new ()).fire - 1 ∧
      (PlagueRuins.run stillAnimation (PlagueRuins.new ()) 5 16).isReturned = true :=
  have hpos : (0 : ℚ) < (PlagueRuins.new ()).fire := by
    rw [plague_new_fire]; norm_num
  have hle : (PlagueRuins.new ()).fire ≤ 100 := by
    rw [plague_new_fire]; norm_num
  have T := timeStep_decays_by_one_every_16_ticks unitApi stillAnimation
    (PlagueRuins.new ()) 32 5 (fun _ => plague_new_sprites ())
  ⟨(T.2.1 (by decide) hpos).1, (T.2.2.2.2.1 hpos hle).1, (T.2.2.2.2.1 hpos hle).2.1,
    (T.2.2.2.2.1 hpos hle).2.2⟩

/-! ## Applying a service -/

theorem log2_of_binade (x : ℚ) (e : Int) (h1 : (2 : ℚ) ^ e ≤ |x|)
    (h2 : |x| < (2 : ℚ) ^ (e + 1)) : Int.log 2 |x| = e := by
  have hpos : 0 < |x| := lt_of_lt_of_le (by positivity) h1
  have a : e ≤ Int.log 2 |x| :=
    (Int.zpow_le_iff_le_log (by norm_num) hpos).mp (by exact_mod_cast h1)
  have b : Int.log 2 |x| < e + 1 :=
    (Int.lt_zpow_iff_log_lt (by norm_num) hpos).mp (by exact_mod_cast h2)
  omega

/-- Rounding of a value whose binade is known. -/
theorem roundBinary_of_binade (p : Nat) (emin : Int) (x : ℚ) (e : Int)
    (h1 : (2 : ℚ) ^ e ≤ |x|) (h2 : |x| < (2 : ℚ) ^ (e + 1)) (he : emin ≤ e) :
    roundBinary p emin x
      = (roundHalfEven (x / (2 : ℚ) ^ (e - ((p : Int) - 1))) : ℚ)
          * (2 : ℚ) ^ (e - ((p : Int) - 1)) := by
  have hx : x ≠ 0 := by
    intro h
    rw [h, abs_zero] at h1
    exact absurd h1 (not_le.mpr (by positivity))
  rw [roundBinary, if_neg hx, log2_of_binade x e h1 h2, max_eq_left he]

theorem roundHalfEven_intCast (n : Int) : roundHalfEven (n : ℚ) = n := by
  simp [roundHalfEven]

/-- A value that is a whole number of units in the last place is representable. -/
theorem roundBinary_of_exact (p : Nat) (emin : Int) (x : ℚ) (e : Int) (n : Int)
    (h1 : (2 : ℚ) ^ e ≤ |x|) (h2 : |x| < (2 : ℚ) ^ (e + 1)) (he : emin ≤ e)
    (hn : x / (2 : ℚ) ^ (e - ((p : Int) - 1)) = (n : ℚ)) : roundBinary p emin x = x := by
  rw [roundBinary_of_binade p emin x e h1 h2 he, hn, roundHalfEven_intCast, ← hn]
  have : (2 : ℚ) ^ (e - ((p : Int) - 1)) ≠ 0 := by positivity
  field_simp

/-- An integer below `2^p` in absolute value is representable with `p` significand
bits. -/
theorem roundBinary_intCast (p : Nat) (emin : Int) (hemin : emin ≤ 0) (z : Int)
    (hz : |z| < 2 ^ p) : roundBinary p emin (z : ℚ) = z := by
  by_cases h0 : z = 0
  · simp [h0, roundBinary]
  · have hpos : 0 < z.natAbs := Int.natAbs_pos.mpr h0
    have habs : |(z : ℚ)| = ((z.natAbs : Nat) : ℚ) := by
      rw [Nat.cast_natAbs, Int.cast_abs]
    have hlt : z.natAbs < 2 ^ p := by
      have : ((z.natAbs : Nat) : Int) < 2 ^ p := by rw [← Int.abs_eq_natAbs]; exact hz
      exact_mod_cast this
    have hlog : Int.log 2 |(z : ℚ)| = ((Nat.log 2 z.natAbs : Nat) : Int) := by
      rw [habs, Int.log_natCast]
    have hl : Nat.log 2 z.natAbs < p := Nat.log_lt_of_lt_pow (by omega) hlt
    have hx : (z : ℚ) ≠ 0 := by exact_mod_cast h0
    rw [roundBinary, if_neg hx, hlog, max_eq_left (by omega)]
    obtain ⟨j, hj⟩ :
        ∃ j : Nat, ((Nat.log 2 z.natAbs : Nat) : Int) - ((p : Int) - 1) = -(j : Int) :=
      ⟨p - 1 - Nat.log 2 z.natAbs, by omega⟩
    rw [hj, zpow_neg, zpow_natCast, div_inv_eq_mul]
    have : (z : ℚ) * (2 : ℚ) ^ j = ((z * 2 ^ j : Int) : ℚ) := by push_cast; ring
    rw [this, roundHalfEven_intCast]
    push_cast
    field_simp

/-- The difference of two integers that is below `2^24` in absolute value passes the
conversions to `double` and to `float` unchanged. -/
theorem toFloat_toDouble_intCast (z : Int) (hz : |z| < 16777216) :
    toFloat (toDouble (z : ℚ)) = (z : ℚ) := by
  have h1 : toDouble (z : ℚ) = (z : ℚ) :=
    roundBinary_intCast 53 (-1022) (by norm_num) z (lt_trans hz (by norm_num))
  have h2 : toFloat (z : ℚ) = (z : ℚ) :=
    roundBinary_intCast 24 (-126) (by norm_num) z (by norm_num; exact hz)
  rw [h1, h2]

theorem burning_applyService_fire {β : Type} (s : Ruins β) (walker : ServiceWalker) :
    (BurningRuins.applyService s walker).fire
      = if ServiceType.prefect = walker.service then
          min (max (toFloat (toDouble (s.fire - walker.serviceValue))) 0) 100
        else s.fire := by
  unfold BurningRuins.applyService
  split_ifs
  · simp [Ruins.updateState, Ruins.getState, math.clamp]
  · rfl

theorem toDouble_of_tenth_difference :
    toDouble (13274133299 / 134217728) = 13274133299 / 134217728 := by
  refine roundBinary_of_exact 53 (-1022) _ 6 6959468799066112 ?_ ?_ (by norm_num) ?_
  · rw [abs_of_pos (by norm_num)]; norm_num
  · rw [abs_of_pos (by norm_num)]; norm_num
  · norm_num

theorem toFloat_of_tenth_difference :
    toFloat (13274133299 / 134217728) = 12963021 / 131072 := by
  rw [toFloat, roundBinary_of_binade 24 (-126) _ 6
    (by rw [abs_of_pos (by norm_num)]; norm_num)
    (by rw [abs_of_pos (by norm_num)]; norm_num) (by norm_num)]
  have hs : (13274133299 / 134217728 : ℚ) / (2 : ℚ) ^ ((6 : Int) - (((24 : Nat) : Int) - 1))
      = 13274133299 / 1024 := by norm_num
  have hf : ⌊(13274133299 / 1024 : ℚ)⌋ = 12963020 := by
    rw [Int.floor_eq_iff]; norm_num
  have hr : roundHalfEven (13274133299 / 1024) = 12963021 := by
    rw [roundHalfEven, hf]
    norm_num
  rw [hs, hr]
  norm_num

theorem toFloat_of_tenth : toFloat (13421773 / 134217728) = 13421773 / 134217728 := by
  refine roundBinary_of_exact 24 (-126) _ (-4) 13421773 ?_ ?_ (by norm_num) ?_
  · rw [abs_of_pos (by norm_num)]; norm_num
  · rw [abs_of_pos (by norm_num)]; norm_num
  · norm_num

/-- C6 (counterexample). A fresh burning ruin (D = 99) served by a prefect whose service value
is the `float` nearest to 0.1 (M = 13421773/134217728): `applyService` leaves
12963021/131072, the `float` nearest to the difference, where `clamp(D - M, 0, 100)` over
exact values is 13274133299/134217728. -/
theorem applyService_exact_clamp_counterexample :
    (BurningRuins.new ()).fire = 99 ∧
      tenthPrefect.service = ServiceType.prefect ∧
      toFloat tenthPrefect.serviceValue = tenthPrefect.serviceValue ∧
      (BurningRuins.applyService (BurningRuins.new ()) tenthPrefect).fire
        = 12963021 / 131072 ∧
      math.clamp ((BurningRuins.new ()).fire - tenthPrefect.serviceValue) 0 100
        = (13274133299 / 134217728 : ℚ) ∧
      (BurningRuins.applyService (BurningRuins.new ()) tenthPrefect).fire
        ≠ math.clamp ((BurningRuins.new ()).fire - tenthPrefect.serviceValue) 0 100 := by
  have hd : (BurningRuins.new ()).fire - tenthPrefect.serviceValue
      = (13274133299 / 134217728 : ℚ) := by
    rw [burning_new_fire]
    norm_num [tenthPrefect]
  have h1 : (BurningRuins.applyService (BurningRuins.new ()) tenthPrefect).fire
      = 12963021 / 131072 := by
    rw [burning_applyService_fire,
      if_pos (show ServiceType.prefect = tenthPrefect.service from rfl), hd,
      toDouble_of_tenth_difference, toFloat_of_tenth_difference]
    norm_num
  have h2 : math.clamp ((BurningRuins.new ()).fire - tenthPrefect.serviceValue) 0 100
      = (13274133299 / 134217728 : ℚ) := by
    rw [hd]
    norm_num [math.clamp]
  refine ⟨burning_new_fire (), rfl, toFloat_of_tenth, h1, h2, ?_⟩
  rw [h1, h2]
  norm_num

/-- C6 (amended). For every `BurningRuins` with decay value `D` and every responder: when the
responder's service is `prefect` and its service value is `M`, `applyService` sets the
fire attribute to `min(max(fl(D - M), 0), 100)`, where `fl` rounds the exact difference
to `double` and then to `float`, and changes nothing else; this is
`min(max(D - M, 0), 100)` whenever the difference is representable, in particular for
integers `D` and `M` with `|D - M| < 2^24`; for any other service `applyService` leaves
the ruin unchanged. -/
theorem applyService_clamps_rounded_difference {β : Type} (s : Ruins β)
    (walker : ServiceWalker) :
    (walker.service = ServiceType.prefect →
        BurningRuins.applyService s walker
          = { s with fire := min (max (toFloat (toDouble
                                (s.fire - walker.serviceValue))) 0) 100 }) ∧
      (walker.service = ServiceType.prefect →
        toFloat (toDouble (s.fire - walker.serviceValue)) = s.fire - walker.serviceValue →
        (BurningRuins.applyService s walker).fire
          = min (max (s.fire - walker.serviceValue) 0) 100) ∧
      (walker.service = ServiceType.prefect →
        ∀ d m : Int, s.fire = (d : ℚ) → walker.serviceValue = (m : ℚ) →
          |d - m| < 16777216 →
          (BurningRuins.applyService s walker).fire
            = min (max ((d : ℚ) - (m : ℚ)) 0) 100) ∧
      (walker.service ≠ ServiceType.prefect → BurningRuins.applyService s walker = s) := by
  refine ⟨?_, ?_, ?_, ?_⟩
  · intro h
    simp [BurningRuins.applyService, h, Ruins.updateState, Ruins.getState, math.clamp]
  · intro h hexact
    rw [burning_applyService_fire, if_pos h.symm, hexact]
  · intro h d m hd hm hlt
    have hz := toFloat_toDouble_intCast (d - m) hlt
    rw [burning_applyService_fire, if_pos h.symm, hd, hm]
    rw [Int.cast_sub] at hz
    rw [hz]
  · intro h
    have h2 : ¬ (ServiceType.prefect = walker.service) := fun e => h e.symm
    simp [BurningRuins.applyService, h2]

theorem applyService_clamps_rounded_difference_witness :
    (BurningRuins.applyService { BurningRuins.new () with fire := ((99 : Int) : ℚ) }
          ⟨ServiceType.prefect, ((98 : Int) : ℚ)⟩).fire
        = min (max (((99 : Int) : ℚ) - ((98 : Int) : ℚ)) 0) 100 ∧
      BurningRuins.applyService (BurningRuins.new ()) ⟨ServiceType.other 3, 40⟩
        = BurningRuins.new () :=
  ⟨(applyService_clamps_rounded_difference { BurningRuins.new () with fire := ((99 : Int) : ℚ) }
      ⟨ServiceType.prefect, ((98 : Int) : ℚ)⟩).2.2.1 rfl 99 98 rfl rfl (by decide),
    (applyService_clamps_rounded_difference (BurningRuins.new ())
      ⟨ServiceType.other 3, 40⟩).2.2.2 (by decide)⟩

/-! ## The scenario of a fresh ruin -/

theorem scenarioState_new_burning {β : Type} (base : β) :
    ScenarioState 0 (BurningRuins.new base) := by
  refine ⟨?_, rfl, rfl, rfl⟩
  rw [burning_new_fire]
  norm_num

theorem scenarioState_new_plague {β : Type} (base : β) :
    ScenarioState 0 (PlagueRuins.new base) := by
  refine ⟨?_, rfl, rfl, rfl⟩
  rw [plague_new_fire]
  norm_num

theorem scenarioLog_of_ge (m k : Nat) (h : 74 ≤ m) (hk : m ≤ k) :
    scenarioLog k = scenarioLog m := by
  simp [scenarioLog, h, show 49 ≤ m by omega, show 49 ≤ k by omega, show 74 ≤ k by omega]

theorem scenarioPicture_of_ge (m k : Nat) (h : 74 ≤ m) (hk : m ≤ k) :
    scenarioPicture k = scenarioPicture m := by
  simp [scenarioPicture, h, show 74 ≤ k by omega]

/-- Once the attribute is 0 and the ruin is marked, further ticks change nothing of the
scenario. -/
theorem scenarioState_frozen {β : Type} (m k : Nat) (s s1 : Ruins β) (hm : 100 ≤ m)
    (hk : m ≤ k) (h : ScenarioState m s) (hf : s1.fire = s.fire)
    (hl : s1.pictureLog = s.pictureLog) (hp : s1.picture = s.picture)
    (hd : s1.isDeleted = true) : ScenarioState k s1 := by
  obtain ⟨h1, h2, h3, _⟩ := h
  refine ⟨?_, ?_, ?_, ?_⟩
  · rw [hf, h1, show 99 - m = 0 by omega, show 99 - k = 0 by omega]
  · rw [hl, h2, scenarioLog_of_ge m k (by omega) hk]
  · rw [hp, h3, scenarioPicture_of_ge m k (by omega) hk]
  · rw [hd]
    exact (decide_eq_true (by omega : 100 ≤ k)).symm

/-- The effect of one decrement on the scenario, in terms of the fields a decrementing
call changes. -/
theorem scenarioState_decrement {β : Type} (m : Nat) (s s1 : Ruins β) (hm : m < 99)
    (h : ScenarioState m s) (hf : s1.fire = s.fire - 1)
    (hl : s1.pictureLog = s.pictureLog ++ transitionPictures (s.fire - 1))
    (hp : s1.picture = ((transitionPictures (s.fire - 1)).getLast?).getD s.picture)
    (hd : s1.isDeleted = s.isDeleted) : ScenarioState (m + 1) s1 := by
  obtain ⟨h1, h2, h3, h4⟩ := h
  have hfire : s.fire - 1 = ((99 - (m + 1) : Nat) : ℚ) := by
    rw [h1]
    have : 99 - m = (99 - (m + 1)) + 1 := by omega
    rw [this]
    push_cast
    ring
  have h50 : (((99 - (m + 1) : Nat) : ℚ) = 50) ↔ m = 48 := by
    rw [show (50 : ℚ) = ((50 : Nat) : ℚ) by norm_num, Nat.cast_inj]
    omega
  have h25 : (((99 - (m + 1) : Nat) : ℚ) = 25) ↔ m = 73 := by
    rw [show (25 : ℚ) = ((25 : Nat) : ℚ) by norm_num, Nat.cast_inj]
    omega
  refine ⟨by rw [hf, hfire], ?_, ?_, ?_⟩
  · rw [hl, h2, hfire, transitionPictures, scenarioLog, scenarioLog]
    simp only [h50, h25]
    by_cases a : m = 48
    · subst a; simp
    · by_cases b : m = 73
      · subst b; simp
      · have e1 : (49 ≤ m + 1) = (49 ≤ m) := by apply propext; omega
        have e2 : (74 ≤ m + 1) = (74 ≤ m) := by apply propext; omega
        simp [a, b, e1, e2]
  · rw [hp, h3, hfire, transitionPictures, scenarioPicture, scenarioPicture]
    simp only [h50, h25]
    by_cases a : m = 48
    · subst a; simp
    · by_cases b : m = 73
      · subst b; simp
      · have e1 : (49 ≤ m + 1) = (49 ≤ m) := by apply propext; omega
        have e2 : (74 ≤ m + 1) = (74 ≤ m) := by apply propext; omega
        simp [a, b, e1, e2]
  · rw [hd, h4]
    have : ¬ 100 ≤ m := by omega
    have : ¬ 100 ≤ m + 1 := by omega
    simp [*]

theorem scenarioState_fire_pos {β : Type} (m : Nat) (s : Ruins β) (h : ScenarioState m s) :
    (0 < s.fire ↔ m < 99) ∧ (s.fire ≤ 0 ↔ 99 ≤ m) := by
  rw [h.1]
  constructor
  · rw [Nat.cast_pos]; omega
  · rw [show (0 : ℚ) = ((0 : Nat) : ℚ) by norm_num, Nat.cast_le]; omega

theorem burning_scenario_step {β : Type} (api : BuildingApi β) (m : Nat) (s : Ruins β)
    (t : Nat) (h : ScenarioState m s) :
    ScenarioState (m + (if t % 16 = 0 then 1 else 0)) (BurningRuins.timeStep api s t) := by
  by_cases ht : t % 16 = 0
  · rw [if_pos ht]
    by_cases hm : m < 99
    · have hf := (scenarioState_fire_pos m s h).1.mpr hm
      obtain ⟨d1, d2, _, d4, d5⟩ := burning_timeStep_decrement api s t ht hf
      exact scenarioState_decrement m s _ hm h d1 d4 d5 d2
    · have hf := (scenarioState_fire_pos m s h).2.mpr (by omega)
      rw [burning_timeStep_removal api s t ht hf]
      obtain ⟨h1, h2, h3, _⟩ := h
      refine ⟨?_, ?_, ?_, ?_⟩
      · show s.fire = _
        rw [h1, show 99 - m = 0 by omega, show 99 - (m + 1) = 0 by omega]
      · show s.pictureLog = _
        rw [h2, scenarioLog_of_ge m (m + 1) (by omega) (by omega)]
      · show s.picture = _
        rw [h3, scenarioPicture_of_ge m (m + 1) (by omega) (by omega)]
      · exact (decide_eq_true (by omega : 100 ≤ m + 1)).symm
  · rw [if_neg ht, burning_timeStep_off_tick api s t ht]
    exact h

theorem burning_scenario {β : Type} (api : BuildingApi β) (base : β) (t0 n : Nat) :
    ScenarioState (ticks16 t0 n) (BurningRuins.run api (BurningRuins.new base) t0 n) := by
  induction n with
  | zero =>
    rw [ticks16_zero]
    exact scenarioState_new_burning base
  | succ n ih =>
    rw [ticks16_succ, BurningRuins.run]
    exact burning_scenario_step api _ _ _ ih

theorem burning_timeStep_isDeleted {β : Type} (api : BuildingApi β) (s : Ruins β) (t : Nat) :
    (BurningRuins.timeStep api s t).isDeleted
      = (s.isDeleted || decide (t % 16 = 0 ∧ s.fire ≤ 0)) := by
  by_cases ht : t % 16 = 0
  · by_cases hf : 0 < s.fire
    · rw [(burning_timeStep_decrement api s t ht hf).2.1]
      simp [not_le.mpr hf]
    · rw [burning_timeStep_removal api s t ht (not_lt.mp hf)]
      simp [ht, not_lt.mp hf]
  · rw [burning_timeStep_off_tick api s t ht]
    simp [ht]

theorem plague_timeStep_isDeleted {β : Type} (anim : AnimationApi) (s : Ruins β) (t : Nat) :
    (PlagueRuins.timeStep anim s t).state.isDeleted
      = (s.isDeleted || decide (t % 16 = 0 ∧ s.fire ≤ 0 ∧ s.fgPictures ≠ [])) := by
  by_cases hfg : s.fgPictures = []
  · rw [plague_timeStep_throws anim s t hfg]
    simp [Outcome.state, hfg]
  · by_cases ht : t % 16 = 0
    · by_cases hf : 0 < s.fire
      · rw [(plague_timeStep_decrement anim s t ht hf hfg).2.2.1]
        simp [not_le.mpr hf]
      · rw [plague_timeStep_removal anim s t ht (not_lt.mp hf) hfg]
        simp [Outcome.state, ht, not_lt.mp hf, hfg]
    · rw [plague_timeStep_off_tick anim s t ht hfg]
      simp [Outcome.state, ht]

/-- A call on a plague ruin whose attribute is not positive changes neither the
attribute nor the pictures set. -/
theorem plague_timeStep_of_nonpos {β : Type} (anim : AnimationApi) (s : Ruins β) (t : Nat)
    (hf : s.fire ≤ 0) :
    (PlagueRuins.timeStep anim s t).state.fire = s.fire ∧
      (PlagueRuins.timeStep anim s t).state.pictureLog = s.pictureLog ∧
      (PlagueRuins.timeStep anim s t).state.picture = s.picture := by
  by_cases hfg : s.fgPictures = []
  · rw [plague_timeStep_throws anim s t hfg]
    exact ⟨rfl, rfl, rfl⟩
  · by_cases ht : t % 16 = 0
    · rw [plague_timeStep_removal anim s t ht hf hfg]
      exact ⟨rfl, rfl, rfl⟩
    · rw [plague_timeStep_off_tick anim s t ht hfg]
      exact ⟨rfl, rfl, rfl⟩

theorem plague_scenario_step {β : Type} (anim : AnimationApi) (m : Nat) (s : Ruins β)
    (t : Nat) (h : ScenarioState m s) (hfg : m < 100 → s.fgPictures ≠ []) :
    ScenarioState (m + (if t % 16 = 0 then 1 else 0)) (PlagueRuins.timeStep anim s t).state ∧
      (m + (if t % 16 = 0 then 1 else 0) < 100 →
        (PlagueRuins.timeStep anim s t).isReturned = true ∧
          (PlagueRuins.timeStep anim s t).state.fgPictures ≠ []) := by
  by_cases hm : m < 100
  · have hne := hfg hm
    by_cases ht : t % 16 = 0
    · rw [if_pos ht]
      by_cases hm2 : m < 99
      · have hf := (scenarioState_fire_pos m s h).1.mpr hm2
        obtain ⟨d1, d2, d3, d4, d5, d6⟩ := plague_timeStep_decrement anim s t ht hf hne
        exact ⟨scenarioState_decrement m s _ hm2 h d2 d5 d6 d3, fun _ => ⟨d1, d4⟩⟩
      · have hf := (scenarioState_fire_pos m s h).2.mpr (by omega)
        rw [plague_timeStep_removal anim s t ht hf hne]
        obtain ⟨h1, h2, h3, _⟩ := h
        refine ⟨⟨?_, ?_, ?_, ?_⟩, fun hlt => absurd hlt (by omega)⟩
        · show s.fire = _
          rw [h1, show 99 - m = 0 by omega, show 99 - (m + 1) = 0 by omega]
        · show s.pictureLog = _
          rw [h2, scenarioLog_of_ge m (m + 1) (by omega) (by omega)]
        · show s.picture = _
          rw [h3, scenarioPicture_of_ge m (m + 1) (by omega) (by omega)]
        · exact (decide_eq_true (by omega : 100 ≤ m + 1)).symm
    · rw [if_neg ht, plague_timeStep_off_tick anim s t ht hne]
      exact ⟨h, fun _ => ⟨rfl, by simp [Outcome.state]⟩⟩
  · have hf := (scenarioState_fire_pos m s h).2.mpr (by omega)
    obtain ⟨n1, n2, n3⟩ := plague_timeStep_of_nonpos anim s t hf
    have hdel : s.isDeleted = true := by
      rw [h.2.2.2]
      exact decide_eq_true (by omega)
    refine ⟨scenarioState_frozen m _ s _ (by omega) (by omega) h n1 n2 n3 ?_,
      fun hlt => absurd hlt (by omega)⟩
    rw [plague_timeStep_isDeleted, hdel]
    rfl

theorem plague_scenario {β : Type} (anim : AnimationApi) (base : β) (t0 n : Nat) :
    ScenarioState (ticks16 t0 n) (PlagueRuins.run anim (PlagueRuins.new base) t0 n).state ∧
      (ticks16 t0 n < 100 →
        (PlagueRuins.run anim (PlagueRuins.new base) t0 n).isReturned = true ∧
          (PlagueRuins.run anim (PlagueRuins.new base) t0 n).state.fgPictures ≠ []) := by
  induction n with
  | zero =>
    rw [ticks16_zero]
    exact ⟨scenarioState_new_plague base, fun _ => ⟨rfl, plague_new_sprites base⟩⟩
  | succ n ih =>
    obtain ⟨ih1, ih2⟩ := ih
    rw [ticks16_succ]
    cases hr : PlagueRuins.run anim (PlagueRuins.new base) t0 n with
    | returned s1 =>
      rw [plague_run_succ_returned anim _ s1 t0 n hr]
      rw [hr] at ih1 ih2
      exact plague_scenario_step anim _ s1 _ ih1 (fun hlt => (ih2 hlt).2)
    | threw s1 =>
      rw [plague_run_succ_threw anim _ s1 t0 n hr]
      rw [hr] at ih1 ih2
      have hm : 100 ≤ ticks16 t0 n := by
        by_contra hlt
        have := (ih2 (by omega)).1
        simp [Outcome.isReturned] at this
      have hdel : s1.isDeleted = true := by
        have := ih1.2.2.2
        simp only [Outcome.state] at this
        rw [this]
        exact decide_eq_true hm
      exact ⟨scenarioState_frozen (ticks16 t0 n) _ s1 s1 hm (by omega) ih1 rfl rfl rfl hdel,
        fun hlt => absurd hlt (by omega)⟩

theorem scenarioLog_count_mid (m : Nat) :
    (scenarioLog m).count (Picture.load ResourceGroup.land2a 214)
      = if 49 ≤ m then 1 else 0 := by
  unfold scenarioLog
  by_cases h1 : 49 ≤ m <;> by_cases h2 : 74 ≤ m <;> simp only [h1, h2, if_true, if_false] <;>
    decide

theorem scenarioLog_count_low (m : Nat) :
    (scenarioLog m).count (Picture.load ResourceGroup.land2a 223)
      = if 74 ≤ m then 1 else 0 := by
  unfold scenarioLog
  by_cases h1 : 49 ≤ m <;> by_cases h2 : 74 ≤ m <;> simp only [h1, h2, if_true, if_false] <;>
    decide

theorem scenario_fire_eq_max (k : Nat) : (((99 - k : Nat) : ℚ)) = max (99 - (k : ℚ)) 0 := by
  by_cases h : k ≤ 99
  · rw [Nat.cast_sub h, max_eq_left]
    · norm_num
    · have : (k : ℚ) ≤ 99 := by exact_mod_cast h
      linarith
  · rw [show 99 - k = 0 by omega, max_eq_right]
    · norm_num
    · have : (99 : ℚ) < k := by exact_mod_cast (not_le.mp h)
      linarith

/-- C7. A freshly constructed ruin (fire = 99), burning or plague, that gets `timeStep` on
consecutive ticks from any tick `t0` and no `applyService`: after `16 * k` ticks the fire
value is `max(99 - k, 0)`; after 784 ticks it is 50, the picture is land2a 214 and
`setPicture(land2a, 214)` has run exactly once, and it has run exactly once after any
larger number of ticks too (and not at all up to 768 ticks); after 1184 ticks the fire
value is 25, the picture is land2a 223 and `setPicture(land2a, 223)` has run exactly
once, as after any larger number of ticks. -/
theorem fresh_ruin_scenario {β : Type} (api : BuildingApi β) (anim : AnimationApi)
    (base : β) (t0 : Nat) :
    (∀ k : Nat,
        (BurningRuins.run api (BurningRuins.new base) t0 (16 * k)).fire
          = max (99 - (k : ℚ)) 0 ∧
        (PlagueRuins.run anim (PlagueRuins.new base) t0 (16 * k)).state.fire
          = max (99 - (k : ℚ)) 0) ∧
      ((BurningRuins.run api (BurningRuins.new base) t0 784).fire = 50 ∧
        (BurningRuins.run api (BurningRuins.new base) t0 784).picture
          = Picture.load ResourceGroup.land2a 214 ∧
        (PlagueRuins.run anim (PlagueRuins.new base) t0 784).state.fire = 50 ∧
        (PlagueRuins.run anim (PlagueRuins.new base) t0 784).state.picture
          = Picture.load ResourceGroup.land2a 214 ∧
        (PlagueRuins.run anim (PlagueRuins.new base) t0 784).isReturned = true) ∧
      (∀ n : Nat, 784 ≤ n →
        (BurningRuins.run api (BurningRuins.new base) t0 n).pictureLog.count
            (Picture.load ResourceGroup.land2a 214) = 1 ∧
        (PlagueRuins.run anim (PlagueRuins.new base) t0 n).state.pictureLog.count
            (Picture.load ResourceGroup.land2a 214) = 1) ∧
      (∀ n : Nat, n ≤ 768 →
        (BurningRuins.run api (BurningRuins.new base) t0 n).pictureLog.count
            (Picture.load ResourceGroup.land2a 214) = 0 ∧
        (PlagueRuins.run anim (PlagueRuins.new base) t0 n).state.pictureLog.count
            (Picture.load ResourceGroup.land2a 214) = 0) ∧
      ((BurningRuins.run api (BurningRuins.new base) t0 1184).fire = 25 ∧
        (BurningRuins.run api (BurningRuins.new base) t0 1184).picture
          = Picture.load ResourceGroup.land2a 223 ∧
        (PlagueRuins.run anim (PlagueRuins.new base) t0 1184).state.fire = 25 ∧
        (PlagueRuins.run anim (PlagueRuins.new base) t0 1184).state.picture
          = Picture.load ResourceGroup.land2a 223 ∧
        (PlagueRuins.run anim (PlagueRuins.new base) t0 1184).isReturned = true) ∧
      (∀ n : Nat, 1184 ≤ n →
        (BurningRuins.run api (BurningRuins.new base) t0 n).pictureLog.count
            (Picture.load ResourceGroup.land2a 223) = 1 ∧
        (PlagueRuins.run anim (PlagueRuins.new base) t0 n).state.pictureLog.count
            (Picture.load ResourceGroup.land2a 223) = 1) := by
  have hb := burning_scenario api base t0
  have hp := plague_scenario anim base t0
  have e784 : ticks16 t0 784 = 49 := ticks16_block t0 49
  have e768 : ticks16 t0 768 = 48 := ticks16_block t0 48
  have e1184 : ticks16 t0 1184 = 74 := ticks16_block t0 74
  refine ⟨fun k => ?_, ?_, fun n hn => ?_, fun n hn => ?_, ?_, fun n hn => ?_⟩
  · have h1 := (hb (16 * k)).1
    have h2 := (hp (16 * k)).1.1
    rw [ticks16_block] at h1 h2
    exact ⟨h1.trans (scenario_fire_eq_max k), h2.trans (scenario_fire_eq_max k)⟩
  · have h1 := hb 784
    have h2 := hp 784
    rw [e784] at h1 h2
    refine ⟨?_, ?_, ?_, ?_, (h2.2 (by omega)).1⟩
    · rw [h1.1]; norm_num
    · rw [h1.2.2.1]; rfl
    · rw [h2.1.1]; norm_num
    · rw [h2.1.2.2.1]; rfl
  · have hm : 49 ≤ ticks16 t0 n := by
      rw [← e784]; exact ticks16_mono t0 hn
    rw [(hb n).2.1, (hp n).1.2.1, scenarioLog_count_mid, if_pos hm]
    exact ⟨rfl, rfl⟩
  · have hm : ¬ 49 ≤ ticks16 t0 n := by
      have := ticks16_mono t0 hn
      omega
    rw [(hb n).2.1, (hp n).1.2.1, scenarioLog_count_mid, if_neg hm]
    exact ⟨rfl, rfl⟩
  · have h1 := hb 1184
    have h2 := hp 1184
    rw [e1184] at h1 h2
    refine ⟨?_, ?_, ?_, ?_, (h2.2 (by omega)).1⟩
    · rw [h1.1]; norm_num
    · rw [h1.2.2.1]; rfl
    · rw [h2.1.1]; norm_num
    · rw [h2.1.2.2.1]; rfl
  · have hm : 74 ≤ ticks16 t0 n := by
      rw [← e1184]; exact ticks16_mono t0 hn
    rw [(hb n).2.1, (hp n).1.2.1, scenarioLog_count_low, if_pos hm]
    exact ⟨rfl, rfl⟩

theorem fresh_ruin_scenario_witness :
    ((BurningRuins.run unitApi (BurningRuins.new ()) 7 2000).pictureLog.count
          (Picture.load ResourceGroup.land2a 214) = 1 ∧
        (PlagueRuins.run stillAnimation (PlagueRuins.new ()) 7 2000).state.pictureLog.count
          (Picture.load ResourceGroup.land2a 214) = 1) ∧
      ((BurningRuins.run unitApi (BurningRuins.new ()) 7 2000).pictureLog.count
          (Picture.load ResourceGroup.land2a 223) = 1 ∧
        (PlagueRuins.run stillAnimation (PlagueRuins.new ()) 7 2000).state.pictureLog.count
          (Picture.load ResourceGroup.land2a 223) = 1) :=
  ⟨(fresh_ruin_scenario unitApi stillAnimation () 7).2.2.1 2000 (by decide),
    (fresh_ruin_scenario unitApi stillAnimation () 7).2.2.2.2.2 2000 (by decide)⟩

/-! ## Removal -/

theorem ticks16_eval_1568 : ticks16 0 1568 = 98 := by decide

/-- C8 (counterexample). In the scenario of a fresh burning ruin started at tick 0, the call
on tick 1568 (divisible by 16) lowers the fire attribute from 1 to 0 and ends with it
equal to 0, and the ruin is not marked for removal after that call; the same holds for
the plague ruin. -/
theorem removal_on_reaching_zero_counterexample :
    1568 % 16 = 0 ∧
      (BurningRuins.run unitApi (BurningRuins.new ()) 0 1568).fire = 1 ∧
      (BurningRuins.timeStep unitApi
        (BurningRuins.run unitApi (BurningRuins.new ()) 0 1568) 1568).fire = 0 ∧
      (BurningRuins.timeStep unitApi
        (BurningRuins.run unitApi (BurningRuins.new ()) 0 1568) 1568).isDeleted = false ∧
      (PlagueRuins.run stillAnimation (PlagueRuins.new ()) 0 1568).state.fire = 1 ∧
      (PlagueRuins.timeStep stillAnimation
        (PlagueRuins.run stillAnimation (PlagueRuins.new ()) 0 1568).state 1568).state.fire
          = 0 ∧
      (PlagueRuins.timeStep stillAnimation
        (PlagueRuins.run stillAnimation (PlagueRuins.new ()) 0 1568).state
          1568).state.isDeleted = false := by
  have hb := burning_scenario unitApi () 0 1568
  have hp := plague_scenario stillAnimation () 0 1568
  rw [ticks16_eval_1568] at hb hp
  have hb1 := burning_scenario_step unitApi 98 _ 1568 hb
  have hp1 := (plague_scenario_step stillAnimation 98 _ 1568 hp.1
    (fun _ => (hp.2 (by decide)).2)).1
  have e : (98 + (if 1568 % 16 = 0 then 1 else 0)) = 99 := by decide
  rw [e] at hb1 hp1
  refine ⟨by decide, ?_, ?_, ?_, ?_, ?_, ?_⟩
  · rw [hb.1]; norm_num
  · rw [hb1.1]; norm_num
  · rw [hb1.2.2.2]; decide
  · rw [hp.1.1]; norm_num
  · rw [hp1.1]; norm_num
  · rw [hp1.2.2.2]; decide

theorem burning_applyService_isDeleted {β : Type} (s : Ruins β) (walker : ServiceWalker) :
    (BurningRuins.applyService s walker).isDeleted = s.isDeleted := by
  unfold BurningRuins.applyService
  split_ifs <;> rfl

/-- C8 (amended). For `BurningRuins` and `PlagueRuins`: a `timeStep` call on a tick
divisible by 16 that begins with the fire attribute at 0 or below marks the entity for
removal, empties its animation and its foreground-sprite list and leaves the attribute as
it is (for the plague ruin: when its sprite list was not yet empty, and the call then
returns); on any other tick, or when the attribute is positive at the start of the call
(so also in the call that lowers it from 1 to 0), the removal mark is left as it was;
`timeStep` never sets the mark in a call that ends with the attribute above 0; a mark
that is set is kept by `timeStep` and by `applyService`. For the fresh ruin of the
scenario the attribute is 0 after 1584 ticks, the ruin is unmarked after any number of
ticks up to 1584 and marked after any number of ticks from 1600 on. -/
theorem removal_follows_zero_decay {β : Type} (api : BuildingApi β) (anim : AnimationApi)
    (s : Ruins β) (t : Nat) (walker : ServiceWalker) (base : β) (t0 : Nat) :
    (t % 16 = 0 → s.fire ≤ 0 →
        (BurningRuins.timeStep api s t).isDeleted = true ∧
        (BurningRuins.timeStep api s t).animation.pictures = [] ∧
        (BurningRuins.timeStep api s t).fgPictures = [] ∧
        (BurningRuins.timeStep api s t).fire = s.fire) ∧
      (t % 16 = 0 → s.fire ≤ 0 → s.fgPictures ≠ [] →
        (PlagueRuins.timeStep anim s t).isReturned = true ∧
        (PlagueRuins.timeStep anim s t).state.isDeleted = true ∧
        (PlagueRuins.timeStep anim s t).state.animation.pictures = [] ∧
        (PlagueRuins.timeStep anim s t).state.fgPictures = [] ∧
        (PlagueRuins.timeStep anim s t).state.fire = s.fire) ∧
      ((t % 16 ≠ 0 ∨ 0 < s.fire) →
        (BurningRuins.timeStep api s t).isDeleted = s.isDeleted ∧
        (PlagueRuins.timeStep anim s t).state.isDeleted = s.isDeleted) ∧
      (0 < (BurningRuins.timeStep api s t).fire →
        (BurningRuins.timeStep api s t).isDeleted = s.isDeleted) ∧
      (0 < (PlagueRuins.timeStep anim s t).state.fire →
        (PlagueRuins.timeStep anim s t).state.isDeleted = s.isDeleted) ∧
      (s.isDeleted = true →
        (BurningRuins.timeStep api s t).isDeleted = true ∧
        (PlagueRuins.timeStep anim s t).state.isDeleted = true ∧
        (BurningRuins.applyService s walker).isDeleted = true ∧
        (PlagueRuins.applyService s walker).isDeleted = true) ∧
      ((BurningRuins.run api (BurningRuins.new base) t0 1584).fire = 0 ∧
        (PlagueRuins.run anim (PlagueRuins.new base) t0 1584).state.fire = 0) ∧
      (∀ n : Nat, n ≤ 1584 →
        (BurningRuins.run api (BurningRuins.new base) t0 n).isDeleted = false ∧
        (PlagueRuins.run anim (PlagueRuins.new base) t0 n).state.isDeleted = false ∧
        (PlagueRuins.run anim (PlagueRuins.new base) t0 n).isReturned = true) ∧
      (∀ n : Nat, 1600 ≤ n →
        (BurningRuins.run api (BurningRuins.new base) t0 n).isDeleted = true ∧
        (PlagueRuins.run anim (PlagueRuins.new base) t0 n).state.isDeleted = true) := by
  have unmarked : (t % 16 ≠ 0 ∨ 0 < s.fire) →
      (BurningRuins.timeStep api s t).isDeleted = s.isDeleted ∧
      (PlagueRuins.timeStep anim s t).state.isDeleted = s.isDeleted := by
    intro h
    rw [burning_timeStep_isDeleted, plague_timeStep_isDeleted]
    rcases h with h | h
    · simp [h]
    · simp [not_le.mpr h]
  have e1584 : ticks16 t0 1584 = 99 := ticks16_block t0 99
  have e1600 : ticks16 t0 1600 = 100 := ticks16_block t0 100
  refine ⟨?_, ?_, unmarked, ?_, ?_, ?_, ?_, fun n hn => ?_, fun n hn => ?_⟩
  · intro ht hf
    rw [burning_timeStep_removal api s t ht hf]
    exact ⟨rfl, rfl, rfl, rfl⟩
  · intro ht hf hfg
    rw [plague_timeStep_removal anim s t ht hf hfg]
    exact ⟨rfl, rfl, rfl, rfl, rfl⟩
  · intro hpos
    apply (unmarked _).1
    rw [burning_timeStep_fire] at hpos
    by_cases ht : t % 16 = 0
    · rw [if_pos ht] at hpos
      exact Or.inr (decay_pos_imp _ hpos)
    · exact Or.inl ht
  · intro hpos
    apply (unmarked _).2
    rw [plague_timeStep_fire] at hpos
    by_cases ht : t % 16 = 0
    · by_cases hfg : s.fgPictures ≠ []
      · rw [if_pos ⟨ht, hfg⟩] at hpos
        exact Or.inr (decay_pos_imp _ hpos)
      · rw [if_neg (fun c => hfg c.2)] at hpos
        exact Or.inr hpos
    · exact Or.inl ht
  · intro hd
    rw [burning_timeStep_isDeleted, plague_timeStep_isDeleted,
      burning_applyService_isDeleted, hd]
    exact ⟨rfl, rfl, rfl, hd⟩
  · have h1 := (burning_scenario api base t0 1584).1
    have h2 := (plague_scenario anim base t0 1584).1.1
    rw [e1584] at h1 h2
    rw [h1, h2]
    norm_num
  · have hm : ticks16 t0 n < 100 := by
      have := ticks16_mono t0 hn
      omega
    rw [(burning_scenario api base t0 n).2.2.2, (plague_scenario anim base t0 n).1.2.2.2]
    exact ⟨decide_eq_false (by omega), decide_eq_false (by omega),
      ((plague_scenario anim base t0 n).2 hm).1⟩
  · have hm : 100 ≤ ticks16 t0 n := by
      have := ticks16_mono t0 hn
      omega
    rw [(burning_scenario api base t0 n).2.2.2, (plague_scenario anim base t0 n).1.2.2.2]
    exact ⟨decide_eq_true hm, decide_eq_true hm⟩

theorem removal_follows_zero_decay_witness :
    ((BurningRuins.run unitApi (BurningRuins.new ()) 3 1584).isDeleted = false ∧
        (PlagueRuins.run stillAnimation (PlagueRuins.new ()) 3 1584).state.isDeleted = false ∧
        (PlagueRuins.run stillAnimation (PlagueRuins.new ()) 3 1584).isReturned = true) ∧
      ((BurningRuins.run unitApi (BurningRuins.new ()) 3 1600).isDeleted = true ∧
        (PlagueRuins.run stillAnimation (PlagueRuins.new ()) 3 1600).state.isDeleted = true) :=
  ⟨(removal_follows_zero_decay unitApi stillAnimation (BurningRuins.new ()) 0
      samplePrefect () 3).2.2.2.2.2.2.2.1 1584 (by decide),
    (removal_follows_zero_decay unitApi stillAnimation (BurningRuins.new ()) 0
      samplePrefect () 3).2.2.2.2.2.2.2.2 1600 (by decide)⟩

/-! ## Education advisor -/

theorem wrapInt32_of_range (z : Int) (h1 : -2147483648 ≤ z) (h2 : z < 2147483648) :
    wrapInt32 z = z := by
  unfold wrapInt32
  omega

theorem intDiv_of_pos (a b : Int) (hb : 0 < b) : intDiv a b = some (Int.tdiv a b) := by
  unfold intDiv
  rw [if_neg (ne_of_gt hb), if_neg (fun h => absurd h.2 (by omega))]

/-- For a non-negative dividend and a positive divisor the quotient of `int` division is
the floor of the exact quotient. -/
theorem tdiv_eq_floor (a b : Int) (ha : 0 ≤ a) (hb : 0 < b) :
    Int.tdiv a b = ⌊((a : Int) : ℚ) / ((b : Int) : ℚ)⌋ := by
  rw [Int.tdiv_eq_ediv ha hb.le]
  lift b to Nat using hb.le
  rw [Int.cast_natCast, Rat.floor_intCast_div_natCast]

theorem tdiv_nonneg_of_nonneg (a b : Int) (ha : 0 ≤ a) (hb : 0 < b) : 0 ≤ Int.tdiv a b := by
  rw [Int.tdiv_eq_ediv ha hb.le]
  exact Int.ediv_nonneg ha hb.le

theorem capacitySpec_nonneg (service : TileOverlayType) :
    0 ≤ AdvisorEducationWindow.capacitySpec service := by
  cases service <;> decide

theorem maxStuding_eq_capacitySpec (service : TileOverlayType) :
    AdvisorEducationWindow.maxStuding service = AdvisorEducationWindow.capacitySpec service := by
  cases service <;> rfl

theorem servedSpec_nil (service : TileOverlayType) :
    AdvisorEducationWindow.servedSpec service [] = 0 := rfl

theorem servedSpec_cons (service : TileOverlayType) (b : ServiceBuilding)
    (bs : List ServiceBuilding) :
    AdvisorEducationWindow.servedSpec service (b :: bs)
      = (if 0 < b.workers then
          ⌊((AdvisorEducationWindow.capacitySpec service * b.workers : Int) : ℚ)
            / ((b.maxWorkers : Int) : ℚ)⌋
        else 0) + AdvisorEducationWindow.servedSpec service bs := by
  unfold AdvisorEducationWindow.servedSpec
  by_cases h : 0 < b.workers
  · simp [List.filter_cons, h]
  · simp [List.filter_cons, h]

theorem servedSpec_nonneg (service : TileOverlayType) (bs : List ServiceBuilding)
    (h : ∀ b ∈ bs, 0 < b.workers → 0 < b.maxWorkers) :
    0 ≤ AdvisorEducationWindow.servedSpec service bs := by
  induction bs with
  | nil => rw [servedSpec_nil]
  | cons b bs ih =>
    have hrest := ih (fun c hc => h c (List.mem_cons_of_mem _ hc))
    rw [servedSpec_cons]
    by_cases hw : 0 < b.workers
    · have hm := h b (List.mem_cons_self _ _) hw
      have hnum : 0 ≤ AdvisorEducationWindow.capacitySpec service * b.workers :=
        mul_nonneg (capacitySpec_nonneg service) hw.le
      have hq0 := tdiv_nonneg_of_nonneg _ _ hnum hm
      rw [tdiv_eq_floor _ _ hnum hm] at hq0
      rw [if_pos hw]
      linarith
    · rw [if_neg hw]
      linarith

/-- The loop over the buildings, when every staffed building has a positive `maxWorkers`
and no `int` operation overflows: it adds the number of buildings, the number of staffed
ones and the served population of the reference definition. -/
theorem buildingLoop_eq_reference (service : TileOverlayType) (bs : List ServiceBuilding)
    (h : ∀ b ∈ bs, 0 < b.workers → 0 < b.maxWorkers)
    (hprod : ∀ b ∈ bs, 0 < b.workers →
      AdvisorEducationWindow.capacitySpec service * b.workers < 2147483648)
    (ret : InfrastructureInfo)
    (h0c : 0 ≤ ret.buildingCount) (h0w : 0 ≤ ret.buildingWork) (h0s : 0 ≤ ret.peoplesStuding)
    (hc : ret.buildingCount + (bs.length : Int) < 2147483648)
    (hw : ret.buildingWork + (bs.length : Int) < 2147483648)
    (hs : ret.peoplesStuding + AdvisorEducationWindow.servedSpec service bs < 2147483648) :
    AdvisorEducationWindow.buildingLoop service bs ret
        = some { buildingCount := ret.buildingCount + (bs.length : Int),
                 buildingWork := ret.buildingWork
                   + ((bs.filter (fun b => decide (0 < b.workers))).length : Int),
                 peoplesStuding := ret.peoplesStuding
                   + AdvisorEducationWindow.servedSpec service bs,
                 coverage := ret.coverage } := by
  induction bs generalizing ret with
  | nil =>
    simp [AdvisorEducationWindow.buildingLoop, servedSpec_nil]
  | cons b bs ih =>
    have hrest : ∀ c ∈ bs, 0 < c.workers → 0 < c.maxWorkers :=
      fun c hc => h c (List.mem_cons_of_mem _ hc)
    have hprest : ∀ c ∈ bs, 0 < c.workers →
        AdvisorEducationWindow.capacitySpec service * c.workers < 2147483648 :=
      fun c hc => hprod c (List.mem_cons_of_mem _ hc)
    have hsn := servedSpec_nonneg service bs hrest
    rw [List.length_cons] at hc hw
    push_cast at hc hw
    rw [servedSpec_cons] at hs ⊢
    rw [AdvisorEducationWindow.buildingLoop, AdvisorEducationWindow.buildingStep]
    have hlen : (0 : Int) ≤ (bs.length : Int) := Int.natCast_nonneg _
    have ec : wrapInt32 (ret.buildingCount + 1) = ret.buildingCount + 1 :=
      wrapInt32_of_range _ (by omega) (by omega)
    by_cases hwk : 0 < b.workers
    · have hm := h b (List.mem_cons_self _ _) hwk
      have hnum : 0 ≤ AdvisorEducationWindow.capacitySpec service * b.workers :=
        mul_nonneg (capacitySpec_nonneg service) hwk.le
      have hp := hprod b (List.mem_cons_self _ _) hwk
      have hq := tdiv_eq_floor _ _ hnum hm
      have hq0 := tdiv_nonneg_of_nonneg _ _ hnum hm
      rw [hq] at hq0
      rw [if_pos hwk] at hs
      have ew : wrapInt32 (ret.buildingWork + 1) = ret.buildingWork + 1 :=
        wrapInt32_of_range _ (by omega) (by omega)
      have ep : wrapInt32 (AdvisorEducationWindow.capacitySpec service * b.workers)
          = AdvisorEducationWindow.capacitySpec service * b.workers :=
        wrapInt32_of_range _ (by omega) hp
      have es : wrapInt32 (ret.peoplesStuding
            + ⌊((AdvisorEducationWindow.capacitySpec service * b.workers : Int) : ℚ)
                / ((b.maxWorkers : Int) : ℚ)⌋)
          = ret.peoplesStuding
            + ⌊((AdvisorEducationWindow.capacitySpec service * b.workers : Int) : ℚ)
                / ((b.maxWorkers : Int) : ℚ)⌋ :=
        wrapInt32_of_range _ (by omega) (by omega)
      simp only [gt_iff_lt, hwk, if_true, maxStuding_eq_capacitySpec, ep,
        intDiv_of_pos _ _ hm, hq, ec, ew, es]
      rw [ih hrest hprest _ (by show 0 ≤ ret.buildingCount + 1; omega)
        (by show 0 ≤ ret.buildingWork + 1; omega)
        (by show 0 ≤ ret.peoplesStuding + _; omega)
        (by show ret.buildingCount + 1 + _ < _; omega)
        (by show ret.buildingWork + 1 + _ < _; omega)
        (by show ret.peoplesStuding + _ + _ < _; omega)]
      simp only [List.filter_cons, hwk, decide_True, if_true, List.length_cons]
      congr 2 <;> push_cast <;> ring
    · rw [if_neg hwk] at hs
      simp only [gt_iff_lt, hwk, if_false, ec]
      rw [ih hrest hprest _ (by show 0 ≤ ret.buildingCount + 1; omega)
        (by show 0 ≤ ret.buildingWork; omega)
        (by show 0 ≤ ret.peoplesStuding; omega)
        (by show ret.buildingCount + 1 + _ < _; omega)
        (by show ret.buildingWork + _ < _; omega)
        (by show ret.peoplesStuding + _ < _; omega)]
      simp only [List.filter_cons, hwk, decide_False, List.length_cons]
      congr 2 <;> push_cast <;> ring

theorem peoplesCount_eq_sum (g : Age) (houses : List House) (n : Int) (hn : 0 ≤ n)
    (hh : ∀ h ∈ houses, 0 ≤ h.count g)
    (hlt : n + (houses.map (fun h => h.count g)).sum < 2147483648) :
    AdvisorEducationWindow.peoplesCount (some g) houses n
      = some (n + (houses.map (fun h => h.count g)).sum) := by
  induction houses generalizing n with
  | nil => simp [AdvisorEducationWindow.peoplesCount]
  | cons h hs ih =>
    have h0 := hh h (List.mem_cons_self _ _)
    have hrest : ∀ k ∈ hs, 0 ≤ k.count g := fun k hk => hh k (List.mem_cons_of_mem _ hk)
    have hsum : 0 ≤ (hs.map (fun h => h.count g)).sum := by
      apply List.sum_nonneg
      intro x hx
      obtain ⟨k, hk, rfl⟩ := List.mem_map.mp hx
      exact hrest k hk
    rw [List.map_cons, List.sum_cons] at hlt ⊢
    rw [AdvisorEducationWindow.peoplesCount]
    have e : wrapInt32 (n + h.count g) = n + h.count g :=
      wrapInt32_of_range _ (by omega) (by omega)
    simp only [e]
    rw [ih (n + h.count g) (by omega) hrest (by omega)]
    congr 1
    ring

theorem eligibleSpec_eq_sum (service : TileOverlayType) (g : Age)
    (hg : AdvisorEducationWindow.age service = some g) (houses : List House) :
    AdvisorEducationWindow.eligibleSpec service houses
      = (houses.map (fun h => h.count g)).sum := by
  unfold AdvisorEducationWindow.eligibleSpec
  cases service <;> simp [AdvisorEducationWindow.age] at hg <;> subst hg <;> rfl

theorem eligibleSpec_nonneg (service : TileOverlayType) (houses : List House)
    (hh : ∀ h ∈ houses, 0 ≤ h.scholar ∧ 0 ≤ h.student ∧ 0 ≤ h.mature) :
    0 ≤ AdvisorEducationWindow.eligibleSpec service houses := by
  unfold AdvisorEducationWindow.eligibleSpec
  apply List.sum_nonneg
  intro x hx
  obtain ⟨h, hmem, rfl⟩ := List.mem_map.mp hx
  obtain ⟨h1, h2, h3⟩ := hh h hmem
  cases service <;> simp [*]

/-- C9 (counterexample). Two inputs with non-negative counts on which `getInfo` is not its
reference definition: for one school with 2 workers and `maxWorkers = 0` the division by
`getMaxWorkers()` is a division by zero and `getInfo` has no value; for one library with
`workers = maxWorkers = 3000000` the product `800 * 3000000` wraps to -1894967296, so
`peoplesStuding` is -631 and `coverage` -63100, where the reference gives 800 and
80000. -/
theorem getInfo_reference_counterexample :
    AdvisorEducationWindow.getInfo TileOverlayType.B_SCHOOL [⟨2, 0⟩] [] = none ∧
      AdvisorEducationWindow.getInfo TileOverlayType.B_LIBRARY [⟨3000000, 3000000⟩] []
        = some ⟨1, 1, -631, -63100⟩ ∧
      AdvisorEducationWindow.getInfoSpec TileOverlayType.B_LIBRARY [⟨3000000, 3000000⟩] []
        = ⟨1, 1, 800, 80000⟩ ∧
      AdvisorEducationWindow.getInfo TileOverlayType.B_LIBRARY [⟨3000000, 3000000⟩] []
        ≠ some (AdvisorEducationWindow.getInfoSpec TileOverlayType.B_LIBRARY
            [⟨3000000, 3000000⟩] []) := by
  have h1 : AdvisorEducationWindow.getInfo TileOverlayType.B_LIBRARY [⟨3000000, 3000000⟩] []
      = some ⟨1, 1, -631, -63100⟩ := by decide
  have h2 : AdvisorEducationWindow.getInfoSpec TileOverlayType.B_LIBRARY
      [⟨3000000, 3000000⟩] [] = ⟨1, 1, 800, 80000⟩ := by
    norm_num [AdvisorEducationWindow.getInfoSpec, AdvisorEducationWindow.servedSpec,
      AdvisorEducationWindow.eligibleSpec, AdvisorEducationWindow.capacitySpec]
  refine ⟨by decide, h1, h2, ?_⟩
  rw [h1, h2]
  decide

/-- C9 (amended). For a service category among school, college and library, buildings and
houses with non-negative counts, every staffed building with `maxWorkers` different from
0, and counts small enough that no `int` operation of `getInfo` overflows (fewer than
`2^31` buildings, `capacity * workers`, `peoplesStuding * 100` and `eligible + 1` below
`2^31`): `getInfo` returns its reference definition (`buildingCount` the number of
buildings, `buildingWork` the number with workers > 0, `peoplesStuding` the sum over
those of `floor(capacity * workers / maxWorkers)` with capacity 75 / 100 / 800,
`coverage` `floor(peoplesStuding * 100 / (eligible + 1))`), and the divisor
`eligible + 1` is positive, so not zero. -/
theorem getInfo_equals_reference_in_range (service : TileOverlayType)
    (buildings : List ServiceBuilding) (houses : List House)
    (hservice : service ≠ TileOverlayType.other)
    (hb : ∀ b ∈ buildings, 0 ≤ b.workers ∧ 0 ≤ b.maxWorkers)
    (hh : ∀ h ∈ houses, 0 ≤ h.scholar ∧ 0 ≤ h.student ∧ 0 ≤ h.mature)
    (hdef : ∀ b ∈ buildings, 0 < b.workers → b.maxWorkers ≠ 0)
    (hlen : (buildings.length : Int) < 2147483648)
    (hprod : ∀ b ∈ buildings, 0 < b.workers →
      AdvisorEducationWindow.capacitySpec service * b.workers < 2147483648)
    (hserved : AdvisorEducationWindow.servedSpec service buildings * 100 < 2147483648)
    (heligible : AdvisorEducationWindow.eligibleSpec service houses + 1 < 2147483648) :
    AdvisorEducationWindow.getInfo service buildings houses
        = some (AdvisorEducationWindow.getInfoSpec service buildings houses) ∧
      0 < AdvisorEducationWindow.eligibleSpec service houses + 1 ∧
      AdvisorEducationWindow.eligibleSpec service houses + 1 ≠ 0 := by
  have hel := eligibleSpec_nonneg service houses hh
  refine ⟨?_, by omega, by omega⟩
  have hpos : ∀ b ∈ buildings, 0 < b.workers → 0 < b.maxWorkers := by
    intro b hmem hw
    have h1 := (hb b hmem).2
    have h2 := hdef b hmem hw
    omega
  have hsn := servedSpec_nonneg service buildings hpos
  have l1 := buildingLoop_eq_reference service buildings hpos hprod
    { buildingWork := 0, peoplesStuding := 0, buildingCount := 0, coverage := 0 }
    (le_refl _) (le_refl _) (le_refl _) (by show (0 : Int) + _ < _; omega)
    (by show (0 : Int) + _ < _; omega) (by show (0 : Int) + _ < _; omega)
  obtain ⟨g, hg⟩ : ∃ g, AdvisorEducationWindow.age service = some g := by
    cases service
    · exact ⟨_, rfl⟩
    · exact ⟨_, rfl⟩
    · exact ⟨_, rfl⟩
    · exact absurd rfl hservice
  have hsum := eligibleSpec_eq_sum service g hg houses
  have hcount : ∀ h ∈ houses, 0 ≤ h.count g := by
    intro h hmem
    obtain ⟨h1, h2, h3⟩ := hh h hmem
    cases g <;> simpa [House.count]
  have l2 := peoplesCount_eq_sum g houses 0 (le_refl _) hcount (by rw [← hsum]; omega)
  rw [← hsum, zero_add] at l2
  have e1 : wrapInt32 (AdvisorEducationWindow.eligibleSpec service houses + 1)
      = AdvisorEducationWindow.eligibleSpec service houses + 1 :=
    wrapInt32_of_range _ (by omega) heligible
  have e2 : wrapInt32 (AdvisorEducationWindow.servedSpec service buildings * 100)
      = AdvisorEducationWindow.servedSpec service buildings * 100 :=
    wrapInt32_of_range _ (by omega) hserved
  have hcov := tdiv_eq_floor (AdvisorEducationWindow.servedSpec service buildings * 100)
    (AdvisorEducationWindow.eligibleSpec service houses + 1) (by omega) (by omega)
  simp only [AdvisorEducationWindow.getInfo, l1, hg, l2, zero_add, e1, e2,
    intDiv_of_pos _ _ (show 0 < AdvisorEducationWindow.eligibleSpec service houses + 1 by omega),
    hcov]
  rfl

theorem getInfo_equals_reference_in_range_witness :
    AdvisorEducationWindow.getInfo TileOverlayType.B_SCHOOL [] []
        = some (AdvisorEducationWindow.getInfoSpec TileOverlayType.B_SCHOOL [] []) ∧
      AdvisorEducationWindow.getInfoSpec TileOverlayType.B_SCHOOL [] [] = ⟨0, 0, 0, 0⟩ ∧
      AdvisorEducationWindow.getInfo TileOverlayType.B_SCHOOL [⟨2, 3⟩] [⟨99, 0, 0⟩]
        = some (AdvisorEducationWindow.getInfoSpec TileOverlayType.B_SCHOOL [⟨2, 3⟩]
            [⟨99, 0, 0⟩]) ∧
      AdvisorEducationWindow.getInfoSpec TileOverlayType.B_SCHOOL [⟨2, 3⟩] [⟨99, 0, 0⟩]
        = ⟨1, 1, 50, 50⟩ :=
  ⟨(getInfo_equals_reference_in_range TileOverlayType.B_SCHOOL [] [] (by decide) (by decide)
      (by decide) (by decide) (by decide) (by decide)
      (by norm_num [AdvisorEducationWindow.servedSpec])
      (by decide)).1,
    by norm_num [AdvisorEducationWindow.getInfoSpec, AdvisorEducationWindow.servedSpec,
      AdvisorEducationWindow.eligibleSpec, AdvisorEducationWindow.capacitySpec],
    (getInfo_equals_reference_in_range TileOverlayType.B_SCHOOL [⟨2, 3⟩] [⟨99, 0, 0⟩]
      (by decide) (by decide) (by decide) (by decide) (by decide) (by decide)
      (by norm_num [AdvisorEducationWindow.servedSpec, AdvisorEducationWindow.capacitySpec])
      (by decide)).1,
    by norm_num [AdvisorEducationWindow.getInfoSpec, AdvisorEducationWindow.servedSpec,
      AdvisorEducationWindow.eligibleSpec, AdvisorEducationWindow.capacitySpec]⟩

/-! ## Persistence -/

theorem variantMap_get_set_same (stream : VariantMap) (key : String) (v d : Variant) :
    (stream.set key v).get key d = v := by
  simp [VariantMap.get, VariantMap.set]

theorem variantMap_get_set_other (stream : VariantMap) (key k : String) (v d : Variant)
    (h : k ≠ key) : (stream.set key v).get k d = stream.get k d := by
  simp [VariantMap.get, VariantMap.set, h]

/-- C11. Persistence round trip: for every `WorkingBuilding` state `s`, loading into any
`WorkingBuilding` the stream produced by `save(s)` (on top of any stream) yields
`currentWorkers`, active flag and `maxWorkers` equal to those of `s`; `save` stores those
three values under the keys "currentWorkers", "active" and "maxWorkers" and leaves every
other key as `Building::save` wrote it. -/
theorem save_load_round_trip {β : Type} (papi : PersistApi β) (s b : WorkingBuilding β)
    (stream : VariantMap) :
    (WorkingBuilding.load papi b (WorkingBuilding.save papi s stream)).currentWorkers
        = s.currentWorkers ∧
      (WorkingBuilding.load papi b (WorkingBuilding.save papi s stream)).isActive
        = s.isActive ∧
      (WorkingBuilding.load papi b (WorkingBuilding.save papi s stream)).maxWorkers
        = s.maxWorkers ∧
      WorkingBuilding.save papi s stream "currentWorkers"
        = some (Variant.int s.currentWorkers) ∧
      WorkingBuilding.save papi s stream "active" = some (Variant.bool s.isActive) ∧
      WorkingBuilding.save papi s stream "maxWorkers" = some (Variant.int s.maxWorkers) ∧
      (∀ k : String, k ≠ "currentWorkers" → k ≠ "active" → k ≠ "maxWorkers" →
        WorkingBuilding.save papi s stream k = papi.save s.base stream k) := by
  have h1 : (WorkingBuilding.save papi s stream).get "currentWorkers" (Variant.int 0)
      = Variant.int s.currentWorkers := by
    simp [WorkingBuilding.save, VariantMap.get, VariantMap.set]
  have h2 : (WorkingBuilding.save papi s stream).get "active" (Variant.bool true)
      = Variant.bool s.isActive := by
    simp [WorkingBuilding.save, VariantMap.get, VariantMap.set]
  have h3 : (WorkingBuilding.save papi s stream).get "maxWorkers" Variant.null
      = Variant.int s.maxWorkers := by
    simp [WorkingBuilding.save, VariantMap.get, VariantMap.set]
  refine ⟨?_, ?_, ?_, ?_, ?_, ?_, ?_⟩
  · simp [WorkingBuilding.load, h1, h3, Variant.isNull, Variant.toInt]
  · simp [WorkingBuilding.load, h2, h3, Variant.isNull, Variant.toBool]
  · simp [WorkingBuilding.load, h3, Variant.isNull, Variant.toInt]
  · simp [WorkingBuilding.save, VariantMap.set]
  · simp [WorkingBuilding.save, VariantMap.set]
  · simp [WorkingBuilding.save, VariantMap.set]
  · intro k k1 k2 k3
    simp [WorkingBuilding.save, VariantMap.set, k1, k2, k3]

/-- C15. `load` is a total function, and for every stream and every prior state:
`currentWorkers` is the stored value (converted to `int`) when "currentWorkers" is
present and 0 otherwise, the active flag is the stored value (converted to `bool`) when
"active" is present and true otherwise, and `maxWorkers` is the stored value when
"maxWorkers" is present and not null and the prior value otherwise. -/
theorem load_falls_back_to_defaults {β : Type} (papi : PersistApi β)
    (b : WorkingBuilding β) (stream : VariantMap) :
    (WorkingBuilding.load papi b stream).currentWorkers
        = (match stream "currentWorkers" with
           | some v => v.toInt
           | none => 0) ∧
      (WorkingBuilding.load papi b stream).isActive
        = (match stream "active" with
           | some v => v.toBool
           | none => true) ∧
      (WorkingBuilding.load papi b stream).maxWorkers
        = (match stream "maxWorkers" with
           | some v => if v.isNull then b.maxWorkers else v.toInt
           | none => b.maxWorkers) ∧
      (WorkingBuilding.load papi b stream).walkerList = b.walkerList := by
  refine ⟨?_, ?_, ?_, ?_⟩
  · cases h : stream "currentWorkers" <;>
      simp only [WorkingBuilding.load, VariantMap.get, h, Option.getD] <;>
      split_ifs <;> rfl
  · cases h : stream "active" <;>
      simp only [WorkingBuilding.load, VariantMap.get, h, Option.getD] <;>
      split_ifs <;> rfl
  · cases h : stream "maxWorkers" with
    | none => simp [WorkingBuilding.load, VariantMap.get, h, Variant.isNull]
    | some v =>
      cases v <;> simp [WorkingBuilding.load, VariantMap.get, h, Variant.isNull]
  · simp only [WorkingBuilding.load]
    split_ifs <;> rfl

/-! ## The invariant over all operations -/

theorem timeStep_keeps_workers {β : Type} (api : BuildingApi β) (w : World) (fuel : Nat)
    (b b1 : WorkingBuilding β) (time : Nat)
    (h : WorkingBuilding.timeStep api w fuel b time = some b1) :
    b1.currentWorkers = b.currentWorkers ∧ b1.maxWorkers = b.maxWorkers ∧
      b1.isActive = b.isActive := by
  unfold WorkingBuilding.timeStep at h
  cases hl : WorkingBuilding.timeStepLoop w.isDeleted fuel b.walkerList 0 with
  | none => simp [hl] at h
  | some l =>
    simp only [hl, Option.some.injEq] at h
    subst h
    exact ⟨rfl, rfl, rfl⟩

theorem load_workers {β : Type} (papi : PersistApi β) (b : WorkingBuilding β)
    (stream : VariantMap) :
    (WorkingBuilding.load papi b stream).currentWorkers
        = (stream.get "currentWorkers" (Variant.int 0)).toInt ∧
      (WorkingBuilding.load papi b stream).maxWorkers
        = (if (stream.get "maxWorkers" Variant.null).isNull then b.maxWorkers
           else (stream.get "maxWorkers" Variant.null).toInt) := by
  unfold WorkingBuilding.load
  by_cases h : (stream.get "maxWorkers" Variant.null).isNull = true
  · simp [h]
  · simp [h]

/-- C12 (counterexample). Two states reachable from the constructor that break
`0 <= currentWorkers <= maxWorkers`: after `setMaxWorkers(10)`, `setWorkers(5)`,
`setMaxWorkers(3)` the count is 5 and the maximum 3; after `load` of a stream that
stores only a count of 100 the count is 100 and the maximum 0. -/
theorem invariant_broken_by_setMaxWorkers_and_load_counterexample :
    WorkingBuilding.Reachable unitApi unitPersist false
        ((((WorkingBuilding.new ()).setMaxWorkers 10).setWorkers 5).setMaxWorkers 3) ∧
      ¬ WorkingBuilding.WorkersInRange
        ((((WorkingBuilding.new ()).setMaxWorkers 10).setWorkers 5).setMaxWorkers 3) ∧
      WorkingBuilding.Reachable unitApi unitPersist false
        (WorkingBuilding.load unitPersist (WorkingBuilding.new ()) oversizedStream) ∧
      ¬ WorkingBuilding.WorkersInRange
        (WorkingBuilding.load unitPersist (WorkingBuilding.new ()) oversizedStream) := by
  refine ⟨?_, ?_, ?_, ?_⟩
  · exact WorkingBuilding.Reachable.setMaxWorkers _ _
      (WorkingBuilding.Reachable.setWorkers _ _
        (WorkingBuilding.Reachable.setMaxWorkers _ _ (WorkingBuilding.Reachable.new ())
          (fun h => absurd h (by decide))))
      (fun h => absurd h (by decide))
  · intro h
    exact absurd h.2 (by decide)
  · exact WorkingBuilding.Reachable.load _ _ (WorkingBuilding.Reachable.new ())
      (fun h => absurd h (by decide))
  · intro h
    have h2 := h.2
    rw [(load_workers unitPersist (WorkingBuilding.new ()) oversizedStream).1,
      (load_workers unitPersist (WorkingBuilding.new ()) oversizedStream).2] at h2
    revert h2
    simp [oversizedStream, VariantMap.get, VariantMap.set, VariantMap.empty, Variant.isNull,
      Variant.toInt, WorkingBuilding.new]

/-- C12 (amended). `0 <= currentWorkers <= maxWorkers` holds in every state reachable from
the constructor's state by any sequence of `setWorkers`, `addWorkers`, `removeWorkers`,
`setActive`, `addWalker`, `timeStep` and `destroy`, of `setMaxWorkers(m)` calls with
`m` not below the current count, and of `load` calls on streams whose values give a count
within `[0, maxWorkers]`. -/
theorem workers_invariant_of_guarded_operations {β : Type} (api : BuildingApi β)
    (papi : PersistApi β) (b : WorkingBuilding β)
    (h : WorkingBuilding.Reachable api papi true b) : WorkingBuilding.WorkersInRange b := by
  induction h with
  | new base => exact ⟨le_refl _, le_refl _⟩
  | setMaxWorkers b m _ hg ih => exact ⟨ih.1, hg rfl⟩
  | setWorkers b n _ ih =>
    have := setWorkers_bounds b n (le_trans ih.1 ih.2)
    exact ⟨this.1, this.2.1⟩
  | addWorkers b n _ ih =>
    have := setWorkers_bounds b (uadd32 (toUInt32 b.getWorkersCount) n) (le_trans ih.1 ih.2)
    exact ⟨this.1, this.2.1⟩
  | removeWorkers b n _ ih =>
    have := setWorkers_bounds b (usub32 (toUInt32 b.getWorkersCount) n) (le_trans ih.1 ih.2)
    exact ⟨this.1, this.2.1⟩
  | setActive b value _ ih => exact ih
  | load b stream _ hg _ =>
    unfold WorkingBuilding.WorkersInRange
    rw [(load_workers papi b stream).1, (load_workers papi b stream).2]
    exact hg rfl
  | addWalker b walker valid _ ih =>
    unfold WorkingBuilding.addWalker
    split_ifs
    · exact ih
    · exact ih
  | timeStep b b1 w fuel time _ hstep ih =>
    obtain ⟨e1, e2, _⟩ := timeStep_keeps_workers api w fuel b b1 time hstep
    unfold WorkingBuilding.WorkersInRange
    rw [e1, e2]
    exact ih
  | destroy b w _ ih => exact ih

theorem workers_invariant_of_guarded_operations_witness :
    WorkingBuilding.WorkersInRange
      ((((WorkingBuilding.new ()).setMaxWorkers 10).setWorkers 5).removeWorkers 7) :=
  workers_invariant_of_guarded_operations unitApi unitPersist _
    (WorkingBuilding.Reachable.removeWorkers _ _
      (WorkingBuilding.Reachable.setWorkers _ _
        (WorkingBuilding.Reachable.setMaxWorkers _ _ (WorkingBuilding.Reachable.new ())
          (fun _ => by decide))))

/-! ## Service on a plague ruin -/

/-- Whatever the service values, the fire attribute of a burning ruin stays above -1 and
at most 100. -/
theorem burning_fire_above_minus_one {β : Type} (api : BuildingApi β) (integral : Bool)
    (s : Ruins β) (h : BurningRuins.Reachable api integral s) :
    -1 < s.fire ∧ s.fire ≤ 100 := by
  induction h with
  | new base =>
    rw [burning_new_fire]
    norm_num
  | timeStep s time _ ih =>
    rw [burning_timeStep_fire]
    unfold decay
    split_ifs
    · constructor <;> linarith [ih.1, ih.2]
    · exact ih
    · exact ih
  | applyService s walker _ _ ih =>
    rw [burning_applyService_fire]
    split_ifs
    · constructor
      · have : (0 : ℚ)
            ≤ min (max (toFloat (toDouble (s.fire - walker.serviceValue))) 0) 100 :=
          le_min (le_max_right _ _) (by norm_num)
        linarith
      · exact min_le_right _ _
    · exact ih

/-- With integer service values below `2^23` in absolute value the fire attribute of a
burning ruin is an integer between 0 and 100. -/
theorem burning_fire_in_range_of_integral {β : Type} (api : BuildingApi β) (s : Ruins β)
    (h : BurningRuins.Reachable api true s) : ∃ n : Nat, n ≤ 100 ∧ s.fire = (n : ℚ) := by
  induction h with
  | new base => exact ⟨99, by decide, by rw [burning_new_fire]; norm_num⟩
  | timeStep s time _ ih =>
    obtain ⟨n, hn, hf⟩ := ih
    rw [burning_timeStep_fire]
    by_cases ht : time % 16 = 0
    · rw [if_pos ht, decay, hf]
      by_cases hpos : 0 < n
      · refine ⟨n - 1, by omega, ?_⟩
        rw [if_pos (by exact_mod_cast hpos), Nat.cast_sub (by omega)]
        norm_num
      · refine ⟨n, hn, ?_⟩
        rw [if_neg (by exact_mod_cast hpos)]
    · rw [if_neg ht]
      exact ⟨n, hn, hf⟩
  | applyService s walker _ hint ih =>
    obtain ⟨n, hn, hf⟩ := ih
    obtain ⟨k, hk, hkb⟩ := hint rfl
    rw [burning_applyService_fire]
    split_ifs
    · refine ⟨(min (max ((n : Int) - k) 0) 100).toNat, ?_, ?_⟩
      · have : min (max ((n : Int) - k) 0) 100 ≤ 100 := min_le_right _ _
        omega
      · have h0 : 0 ≤ min (max ((n : Int) - k) 0) 100 :=
          le_min (le_max_right _ _) (by norm_num)
        have hc : (((min (max ((n : Int) - k) 0) 100).toNat : Nat) : ℚ)
            = ((min (max ((n : Int) - k) 0) 100 : Int) : ℚ) := by
          rw [← Int.cast_natCast, Int.toNat_of_nonneg h0]
        have hz := toFloat_toDouble_intCast ((n : Int) - k) (by
          have h1 := abs_lt.mp hkb
          rw [abs_lt]
          constructor <;> omega)
        rw [Int.cast_sub, Int.cast_natCast] at hz
        rw [hc, hf, hk, hz]
        push_cast
        rfl
    · exact ⟨n, hn, hf⟩

/-- The fire attribute of a plague ruin is an integer between 0 and 99. -/
theorem plague_fire_in_range {β : Type} (anim : AnimationApi) (s : Ruins β)
    (h : PlagueRuins.Reachable anim s) : ∃ n : Nat, n ≤ 99 ∧ s.fire = (n : ℚ) := by
  induction h with
  | new base => exact ⟨99, by decide, by rw [plague_new_fire]; norm_num⟩
  | timeStep s time _ ih =>
    obtain ⟨n, hn, hf⟩ := ih
    rw [plague_timeStep_fire]
    by_cases ht : time % 16 = 0 ∧ s.fgPictures ≠ []
    · rw [if_pos ht, decay, hf]
      by_cases hpos : 0 < n
      · refine ⟨n - 1, by omega, ?_⟩
        rw [if_pos (by exact_mod_cast hpos), Nat.cast_sub (by omega)]
        norm_num
      · refine ⟨n, hn, ?_⟩
        rw [if_neg (by exact_mod_cast hpos)]
    · rw [if_neg ht]
      exact ⟨n, hn, hf⟩
  | applyService s walker _ ih => exact ih

/-- A fresh burning ruin served by a prefect with service value 98.5 has the fire attribute
0.5; the `timeStep` call on tick 0 then finds it positive and, with `updateState` adding
the value to the attribute as modelled here, lowers it to -0.5. The state is reached from
construction by one `applyService` and one `timeStep` call. Whether the attribute leaves
its range there rests on `Construction::updateState`, which is not among the sources. -/
theorem fire_negative_after_fractional_service :
    BurningRuins.Reachable unitApi false
        (BurningRuins.timeStep unitApi
          (BurningRuins.applyService (BurningRuins.new ()) halfPrefect) 0) ∧
      (BurningRuins.applyService (BurningRuins.new ()) halfPrefect).fire = 1 / 2 ∧
      (BurningRuins.timeStep unitApi
          (BurningRuins.applyService (BurningRuins.new ()) halfPrefect) 0).fire = -1 / 2 ∧
      ¬ (0 ≤ (BurningRuins.timeStep unitApi
          (BurningRuins.applyService (BurningRuins.new ()) halfPrefect) 0).fire) := by
  have hhalf : toFloat (toDouble (1 / 2 : ℚ)) = 1 / 2 := by
    have hd : toDouble (1 / 2 : ℚ) = 1 / 2 := by
      refine roundBinary_of_exact 53 (-1022) _ (-1) 4503599627370496 ?_ ?_ (by norm_num) ?_
      · rw [abs_of_pos (by norm_num)]; norm_num
      · rw [abs_of_pos (by norm_num)]; norm_num
      · norm_num
    have hf : toFloat (1 / 2 : ℚ) = 1 / 2 := by
      refine roundBinary_of_exact 24 (-126) _ (-1) 8388608 ?_ ?_ (by norm_num) ?_
      · rw [abs_of_pos (by norm_num)]; norm_num
      · rw [abs_of_pos (by norm_num)]; norm_num
      · norm_num
    rw [hd, hf]
  have h1 : (BurningRuins.applyService (BurningRuins.new ()) halfPrefect).fire = 1 / 2 := by
    rw [burning_applyService_fire,
      if_pos (show ServiceType.prefect = halfPrefect.service from rfl), burning_new_fire]
    have hd : (99 : ℚ) - halfPrefect.serviceValue = 1 / 2 := by norm_num [halfPrefect]
    rw [hd, hhalf]
    norm_num
  have h2 : (BurningRuins.timeStep unitApi
      (BurningRuins.applyService (BurningRuins.new ()) halfPrefect) 0).fire = -1 / 2 := by
    rw [burning_timeStep_fire, h1]
    norm_num [decay]
  refine ⟨?_, h1, h2, ?_⟩
  · exact BurningRuins.Reachable.timeStep _ _
      (BurningRuins.Reachable.applyService _ _ (BurningRuins.Reachable.new ())
        (fun h => absurd h (by decide)))
  · rw [h2]
    norm_num

/-! ## Walkability -/

/-- C16. For every `BurningRuins` and `PlagueRuins` state with `0 <= fire <= 100`:
`isWalkable` is false exactly when `fire > 0` and true exactly when `fire = 0`; a
`timeStep` call that sets the removal mark acts on a walkable ruin and leaves it
walkable; and `timeStep` leaves the removal mark as it is on a ruin that is not
walkable. -/
theorem walkable_iff_fire_zero {β : Type} (api : BuildingApi β) (anim : AnimationApi)
    (s : Ruins β) (t : Nat) (h0 : 0 ≤ s.fire) (_h100 : s.fire ≤ 100) :
    (BurningRuins.isWalkable s = false ↔ 0 < s.fire) ∧
      (BurningRuins.isWalkable s = true ↔ s.fire = 0) ∧
      (PlagueRuins.isWalkable s = false ↔ 0 < s.fire) ∧
      (PlagueRuins.isWalkable s = true ↔ s.fire = 0) ∧
      (s.isDeleted = false → (BurningRuins.timeStep api s t).isDeleted = true →
        BurningRuins.isWalkable s = true ∧
        BurningRuins.isWalkable (BurningRuins.timeStep api s t) = true) ∧
      (s.isDeleted = false → (PlagueRuins.timeStep anim s t).state.isDeleted = true →
        PlagueRuins.isWalkable s = true ∧
        PlagueRuins.isWalkable (PlagueRuins.timeStep anim s t).state = true) ∧
      (BurningRuins.isWalkable s = false →
        (BurningRuins.timeStep api s t).isDeleted = s.isDeleted) ∧
      (PlagueRuins.isWalkable s = false →
        (PlagueRuins.timeStep anim s t).state.isDeleted = s.isDeleted) := by
  have hb : ∀ r : Ruins β, BurningRuins.isWalkable r = true ↔ r.fire = 0 := by
    intro r
    simp [BurningRuins.isWalkable, Ruins.getState]
  have hp : ∀ r : Ruins β, PlagueRuins.isWalkable r = true ↔ r.fire = 0 := by
    intro r
    simp [PlagueRuins.isWalkable, Ruins.getState]
  have hpos : 0 < s.fire ↔ ¬ s.fire = 0 :=
    ⟨fun h e => absurd h (by rw [e]; exact lt_irrefl _), fun h => lt_of_le_of_ne h0 (Ne.symm h)⟩
  have hbf : BurningRuins.isWalkable s = false ↔ 0 < s.fire := by
    rw [hpos, ← hb s]
    simp
  have hpf : PlagueRuins.isWalkable s = false ↔ 0 < s.fire := by
    rw [hpos, ← hp s]
    simp
  refine ⟨hbf, hb s, hpf, hp s, ?_, ?_, ?_, ?_⟩
  · intro hd hmark
    rw [burning_timeStep_isDeleted, hd] at hmark
    simp only [Bool.false_or, decide_eq_true_eq] at hmark
    have hz : s.fire = 0 := le_antisymm hmark.2 h0
    refine ⟨(hb s).mpr hz, (hb _).mpr ?_⟩
    rw [burning_timeStep_fire, if_pos hmark.1, decay_of_nonpos _ hmark.2, hz]
  · intro hd hmark
    rw [plague_timeStep_isDeleted, hd] at hmark
    simp only [Bool.false_or, decide_eq_true_eq] at hmark
    have hz : s.fire = 0 := le_antisymm hmark.2.1 h0
    refine ⟨(hp s).mpr hz, (hp _).mpr ?_⟩
    rw [plague_timeStep_fire, if_pos ⟨hmark.1, hmark.2.2⟩, decay_of_nonpos _ hmark.2.1, hz]
  · intro hw
    rw [burning_timeStep_isDeleted]
    simp [not_le.mpr (hbf.mp hw)]
  · intro hw
    rw [plague_timeStep_isDeleted]
    simp [not_le.mpr (hpf.mp hw)]

theorem walkable_iff_fire_zero_witness :
    BurningRuins.isWalkable (BurningRuins.new ()) = false ∧
      PlagueRuins.isWalkable (BurningRuins.new ()) = false ∧
      (BurningRuins.timeStep unitApi (BurningRuins.new ()) 16).isDeleted
        = (BurningRuins.new ()).isDeleted ∧
      (PlagueRuins.timeStep stillAnimation (BurningRuins.new ()) 16).state.isDeleted
        = (BurningRuins.new ()).isDeleted :=
  have h0 : (0 : ℚ) ≤ (BurningRuins.new ()).fire := by
    rw [burning_new_fire]; norm_num
  have h100 : (BurningRuins.new ()).fire ≤ 100 := by
    rw [burning_new_fire]; norm_num
  have hpos : (0 : ℚ) < (BurningRuins.new ()).fire := by
    rw [burning_new_fire]; norm_num
  have T := walkable_iff_fire_zero unitApi stillAnimation (BurningRuins.new ()) 16 h0 h100
  ⟨T.1.mpr hpos, T.2.2.1.mpr hpos, T.2.2.2.2.2.2.1 (T.1.mpr hpos),
    T.2.2.2.2.2.2.2 (T.2.2.1.mpr hpos)⟩

/-! ## The conversion event -/

/-- C17. For every `BurningRuins` and `PlagueRuins` state, whatever its fire value, one call
of `destroy()` appends exactly one event to those the parent's `destroy` dispatched: a
`BuildEvent` with the entity's tile position and the kind `B_BURNED_RUINS`; when the
parent's `destroy` dispatches no `BuildEvent`, the call dispatches exactly one. `timeStep`
and `applyService` leave the event log as it is. -/
theorem destroy_dispatches_one_build_event {β : Type} (api : BuildingApi β)
    (anim : AnimationApi) (dapi : DestroyApi β) (s : Ruins β) (w : World) (t : Nat)
    (walker : ServiceWalker) :
    (BurningRuins.destroy dapi s w).2.events
        = (dapi.destroy s.base w).2.events
          ++ [GameEvent.build (dapi.getTilePos (dapi.destroy s.base w).1)
                BuildingKind.B_BURNED_RUINS] ∧
      (PlagueRuins.destroy dapi s w).2.events
        = (dapi.destroy s.base w).2.events
          ++ [GameEvent.build (dapi.getTilePos (dapi.destroy s.base w).1)
                BuildingKind.B_BURNED_RUINS] ∧
      ((dapi.destroy s.base w).2.events.filter GameEvent.isBuild
          = w.events.filter GameEvent.isBuild →
        (BurningRuins.destroy dapi s w).2.events.filter GameEvent.isBuild
          = w.events.filter GameEvent.isBuild
            ++ [GameEvent.build (dapi.getTilePos (dapi.destroy s.base w).1)
                  BuildingKind.B_BURNED_RUINS] ∧
        (PlagueRuins.destroy dapi s w).2.events.filter GameEvent.isBuild
          = w.events.filter GameEvent.isBuild
            ++ [GameEvent.build (dapi.getTilePos (dapi.destroy s.base w).1)
                  BuildingKind.B_BURNED_RUINS]) ∧
      (BurningRuins.destroy dapi s w).1.fire = s.fire ∧
      (PlagueRuins.destroy dapi s w).1.fire = s.fire ∧
      (BurningRuins.timeStepInWorld api s w t).2.events = w.events ∧
      (PlagueRuins.timeStepInWorld anim s w t).2.events = w.events ∧
      (BurningRuins.applyServiceInWorld s w walker).2.events = w.events ∧
      (PlagueRuins.applyServiceInWorld s w walker).2.events = w.events := by
  refine ⟨rfl, rfl, ?_, rfl, rfl, rfl, rfl, rfl, rfl⟩
  intro hparent
  have hb : (BurningRuins.destroy dapi s w).2.events
      = (dapi.destroy s.base w).2.events
        ++ [GameEvent.build (dapi.getTilePos (dapi.destroy s.base w).1)
              BuildingKind.B_BURNED_RUINS] := rfl
  have hp : (PlagueRuins.destroy dapi s w).2.events
      = (dapi.destroy s.base w).2.events
        ++ [GameEvent.build (dapi.getTilePos (dapi.destroy s.base w).1)
              BuildingKind.B_BURNED_RUINS] := rfl
  rw [hb, hp, List.filter_append, hparent]
  simp [GameEvent.isBuild]

theorem destroy_dispatches_one_build_event_witness :
    (BurningRuins.destroy workingParent (BurningRuins.new sampleBuilding)
        emptyWorld).2.events.filter GameEvent.isBuild
      = emptyWorld.events.filter GameEvent.isBuild
        ++ [GameEvent.build
              (workingParent.getTilePos (workingParent.destroy sampleBuilding emptyWorld).1)
              BuildingKind.B_BURNED_RUINS] ∧
    (PlagueRuins.destroy workingParent (BurningRuins.new sampleBuilding)
        emptyWorld).2.events.filter GameEvent.isBuild
      = emptyWorld.events.filter GameEvent.isBuild
        ++ [GameEvent.build
              (workingParent.getTilePos (workingParent.destroy sampleBuilding emptyWorld).1)
              BuildingKind.B_BURNED_RUINS] :=
  (destroy_dispatches_one_build_event idleWorkingApi stillAnimation workingParent
    (BurningRuins.new sampleBuilding) emptyWorld 0 samplePrefect).2.2.1 (by decide)

/-! ## Walker references -/

/-- The loop on a list of references whose part from the iterator on is valid: no
invalid reference is met, and that part is filtered. -/
theorem timeStepLoopPtr_split (d : WalkerId → Bool) :
    ∀ (fuel : Nat) (pre : List WalkerPtr) (suf : List WalkerId), suf.length < fuel →
      WorkingBuilding.timeStepLoopPtr d fuel (pre ++ suf.map some) pre.length
        = Deref.value (pre ++ (suf.filter (fun k => !d k)).map some) := by
  intro fuel
  induction fuel with
  | zero => intro pre suf h; omega
  | succ fuel ih =>
    intro pre suf h
    cases suf with
    | nil => simp [WorkingBuilding.timeStepLoopPtr]
    | cons x rest =>
      have hlt : pre.length < (pre ++ (x :: rest).map some).length := by simp
      have hget : (pre ++ (x :: rest).map some).get ⟨pre.length, hlt⟩ = some x := by
        rw [List.get_eq_getElem]
        show (pre ++ (x :: rest).map some)[pre.length] = some x
        rw [List.getElem_append_right (le_refl _)]
        simp
      have hrest : rest.length < fuel := by simp at h; omega
      rw [WorkingBuilding.timeStepLoopPtr, dif_pos hlt]
      simp only [hget]
      by_cases hd : d x = true
      · have he : (pre ++ (x :: rest).map some).eraseIdx pre.length
            = pre ++ rest.map some := by
          rw [List.eraseIdx_append_of_length_le (le_refl _)]
          simp
        rw [if_pos hd, he, ih pre rest hrest]
        simp [List.filter_cons, hd]
      · have hpre : pre ++ (x :: rest).map some = (pre ++ [some x]) ++ rest.map some := by
          simp
        have hlen : pre.length + 1 = (pre ++ [some x]).length := by simp
        rw [if_neg hd, hpre, hlen, ih (pre ++ [some x]) rest hrest]
        simp [List.filter_cons, hd]

theorem valid_list_eq_map (l : List WalkerPtr) (h : ∀ p ∈ l, WalkerPtr.isValid p = true) :
    ∃ ids : List WalkerId, l = ids.map some := by
  induction l with
  | nil => exact ⟨[], rfl⟩
  | cons p rest ih =>
    obtain ⟨ids, hids⟩ := ih (fun q hq => h q (List.mem_cons_of_mem _ hq))
    have hp := h p (List.mem_cons_self _ _)
    cases p with
    | none => simp [WalkerPtr.isValid] at hp
    | some k => exact ⟨k :: ids, by rw [hids]; rfl⟩

theorem destroyLoopPtr_of_valid (ids : List WalkerId) (w : World) :
    WorkingBuilding.destroyLoopPtr (ids.map some) w
      = Deref.value (ids.foldl World.deleteLater w) := by
  induction ids generalizing w with
  | nil => rfl
  | cons k rest ih =>
    rw [List.map_cons, WorkingBuilding.destroyLoopPtr, ih]
    rfl

/-- The references loop agrees with the loop on walkers of `timeStepLoop`. -/
theorem timeStepLoopPtr_of_valid (d : WalkerId → Bool) (fuel : Nat) (ids : List WalkerId)
    (h : ids.length < fuel) :
    WorkingBuilding.timeStepLoopPtr d fuel (ids.map some) 0
        = Deref.value ((ids.filter (fun k => !d k)).map some) ∧
      WorkingBuilding.timeStepLoop d fuel ids 0 = some (ids.filter (fun k => !d k)) := by
  have h1 := timeStepLoopPtr_split d fuel [] ids h
  have h2 := timeStepLoop_split d fuel [] ids h
  simp only [List.nil_append, List.length_nil] at h1 h2
  exact ⟨h1, h2⟩

theorem timeStepLoopPtr_keeps_valid (d : WalkerId → Bool) :
    ∀ (fuel : Nat) (l l1 : List WalkerPtr) (it : Nat),
      (∀ p ∈ l, WalkerPtr.isValid p = true) →
      WorkingBuilding.timeStepLoopPtr d fuel l it = Deref.value l1 →
      ∀ p ∈ l1, WalkerPtr.isValid p = true := by
  intro fuel
  induction fuel with
  | zero =>
    intro l l1 it _ h
    simp [WorkingBuilding.timeStepLoopPtr] at h
  | succ fuel ih =>
    intro l l1 it hv h
    rw [WorkingBuilding.timeStepLoopPtr] at h
    by_cases hlt : it < l.length
    · rw [dif_pos hlt] at h
      cases hg : l.get ⟨it, hlt⟩ with
      | none =>
        rw [hg] at h
        simp at h
      | some k =>
        rw [hg] at h
        dsimp only at h
        by_cases hd : d k = true
        · rw [if_pos hd] at h
          refine ih (l.eraseIdx it) l1 it ?_ h
          intro p hp
          exact hv p (List.mem_of_mem_eraseIdx hp)
        · rw [if_neg hd] at h
          exact ih l l1 (it + 1) hv h
    · rw [dif_neg hlt] at h
      simp only [Deref.value.injEq] at h
      subst h
      exact hv

theorem reachableWalkers_valid (l : List WalkerPtr)
    (h : WorkingBuilding.ReachableWalkers l) : ∀ p ∈ l, WalkerPtr.isValid p = true := by
  induction h with
  | new => intro p hp; simp at hp
  | addWalker l walker _ ih =>
    intro p hp
    unfold WorkingBuilding.addWalkerPtr at hp
    by_cases hv : WalkerPtr.isValid walker = true
    · rw [if_pos hv] at hp
      rcases List.mem_append.mp hp with hm | hm
      · exact ih p hm
      · simp at hm
        rw [hm]
        exact hv
    · rw [if_neg hv] at hp
      exact ih p hp
  | timeStep l l1 d fuel _ hstep ih => exact timeStepLoopPtr_keeps_valid d fuel l l1 0 ih hstep
  | destroy l w w1 _ _ ih => exact ih

/-- C18. `addWalker` appends a valid reference at the end of the walker list and leaves the
list unchanged for a null reference; so in every state reachable from construction by
`addWalker`, `timeStep` and `destroy` calls every entry of the list is a valid reference,
the loop of `timeStep` returns without dereferencing an invalid reference (with any
fuel above the list length, and with the filtered list), and so does the loop of
`destroy`. -/
theorem walker_list_holds_valid_references (l : List WalkerPtr) (walker : WalkerPtr)
    (d : WalkerId → Bool) (fuel : Nat) (w : World)
    (h : WorkingBuilding.ReachableWalkers l) (hfuel : l.length < fuel) :
    (WalkerPtr.isValid walker = true → WorkingBuilding.addWalkerPtr l walker = l ++ [walker]) ∧
      (WalkerPtr.isValid walker = false → WorkingBuilding.addWalkerPtr l walker = l) ∧
      (∀ p ∈ l, WalkerPtr.isValid p = true) ∧
      (∀ p ∈ WorkingBuilding.addWalkerPtr l walker, WalkerPtr.isValid p = true) ∧
      (∃ l1, WorkingBuilding.timeStepLoopPtr d fuel l 0 = Deref.value l1 ∧
        (∀ p ∈ l1, WalkerPtr.isValid p = true) ∧
        l1 = l.filter (fun p => match p with
                                | some k => !d k
                                | none => true)) ∧
      (∃ w1, WorkingBuilding.destroyLoopPtr l w = Deref.value w1) := by
  have hv := reachableWalkers_valid l h
  obtain ⟨ids, rfl⟩ := valid_list_eq_map l hv
  have hlen : ids.length < fuel := by simpa using hfuel
  refine ⟨?_, ?_, hv, ?_, ?_, ?_⟩
  · intro hw
    simp [WorkingBuilding.addWalkerPtr, hw]
  · intro hw
    simp [WorkingBuilding.addWalkerPtr, hw]
  · exact reachableWalkers_valid _ (WorkingBuilding.ReachableWalkers.addWalker _ walker h)
  · have h1 := (timeStepLoopPtr_of_valid d fuel ids hlen).1
    refine ⟨_, h1, ?_, ?_⟩
    · intro p hp
      obtain ⟨k, _, rfl⟩ := List.mem_map.mp hp
      rfl
    · rw [List.filter_map]
      rfl
  · exact ⟨_, destroyLoopPtr_of_valid ids w⟩

theorem walker_list_holds_valid_references_witness :
    (∀ p ∈ WorkingBuilding.addWalkerPtr (WorkingBuilding.addWalkerPtr [] (some 7)) none,
        WalkerPtr.isValid p = true) ∧
      (∃ l1, WorkingBuilding.timeStepLoopPtr (fun k => k == 7) 5
          (WorkingBuilding.addWalkerPtr (WorkingBuilding.addWalkerPtr [] (some 7)) none) 0
            = Deref.value l1 ∧
        (∀ p ∈ l1, WalkerPtr.isValid p = true) ∧
        l1 = (WorkingBuilding.addWalkerPtr (WorkingBuilding.addWalkerPtr [] (some 7))
                none).filter (fun p => match p with
                                       | some k => !(fun k => k == 7) k
                                       | none => true)) :=
  have T := walker_list_holds_valid_references
    (WorkingBuilding.addWalkerPtr (WorkingBuilding.addWalkerPtr [] (some 7)) none) (some 9)
    (fun k => k == 7) 5 emptyWorld
    (WorkingBuilding.ReachableWalkers.addWalker _ _
      (WorkingBuilding.ReachableWalkers.addWalker _ _ WorkingBuilding.ReachableWalkers.new))
    (by decide)
  ⟨T.2.2.1, T.2.2.2.2.1⟩

/-! ## The coverage label -/

/-- For a positive coverage the index of `_updateTexture` is inside the array exactly
when the coverage is below 100. -/
theorem coverageIndex_inside_iff (info : InfrastructureInfo) (h : 0 < info.coverage) :
    (EducationInfoLabel.coverageIndex info).toNat < EducationInfoLabel.coverages.length
      ↔ info.coverage < 100 := by
  have hlen : EducationInfoLabel.coverages.length = 10 := rfl
  unfold EducationInfoLabel.coverageIndex math.clamp
  rw [Int.tdiv_eq_ediv h.le (by norm_num), hlen]
  have h0 : 0 ≤ info.coverage / 10 := Int.ediv_nonneg h.le (by norm_num)
  rw [max_eq_left h0]
  by_cases hc : info.coverage < 100
  · have : info.coverage / 10 ≤ 10 := by omega
    rw [min_eq_left this]
    constructor
    · intro _; exact hc
    · intro _; omega
  · have : 10 ≤ info.coverage / 10 := by omega
    rw [min_eq_right this]
    constructor
    · intro hlt; exact absurd hlt (by decide)
    · intro hlt; exact absurd hlt hc

/-- C19 (failing input). One fully staffed school and one house with 50 scholars: `getInfo`
returns coverage 147, `_updateTexture` computes the index `clamp(14, 0, 10) = 10`, and
the array `coverages` has 10 entries, so the read is one past its end. -/
theorem coverage_index_past_the_table :
    AdvisorEducationWindow.getInfo TileOverlayType.B_SCHOOL [⟨1, 1⟩] [⟨50, 0, 0⟩]
        = some ⟨1, 1, 75, 147⟩ ∧
      (0 : Int) < (InfrastructureInfo.mk 1 1 75 147).coverage ∧
      EducationInfoLabel.coverageIndex ⟨1, 1, 75, 147⟩ = 10 ∧
      EducationInfoLabel.coverages.length = 10 ∧
      EducationInfoLabel.coverageStr ⟨1, 1, 75, 147⟩ = none := by
  decide


/-! ## The served-population estimate -/

end OpenCaesar3
